import Mathlib

/-!
Verification development for the discourse-graph indexing and query engine.

The TypeScript sources are embedded shallowly:
* JavaScript `Map<string, V>` becomes an association list `List (String × V)`
  with `mapSet` (update-in-place-or-append, exactly `Map.set` insertion-order
  semantics) and `mapGet` (first binding wins, as in a duplicate-free map).
* Machine strings become Lean `String`; the few regexes in the loader are
  unfolded into explicit character-list matching with the same match policy
  (anchored, lazy/greedy as in the source pattern).
* IEEE-754 doubles in the BM25 scorer become exact rationals `ℚ`; `Math.log`
  becomes an explicit function parameter `log : ℚ → ℚ` (theorems that need a
  property of the logarithm take it as a hypothesis satisfied by `Real.log`).
* Fallible operations return `Option`/a `ToolResult` sum; the MCP handlers'
  `{ isError: true }` replies become the `ToolResult.notFound` constructor.
-/

/-- JS `Map.get`: the binding of the first (unique) occurrence of the key. -/
def mapGet {α : Type} : List (String × α) → String → Option α
  | [], _ => none
  | (k', v) :: rest, k => if k' = k then some v else mapGet rest k

/-- JS `Map.set`: update an existing binding in place (keeping its position),
otherwise append the new binding at the end — insertion-order semantics. -/
def mapSet {α : Type} : List (String × α) → String → α → List (String × α)
  | [], k, v => [(k, v)]
  | (k', v') :: rest, k, v =>
    if k' = k then (k, v) :: rest else (k', v') :: mapSet rest k v

theorem mapGet_mapSet_self {α : Type} (m : List (String × α)) (k : String) (v : α) :
    mapGet (mapSet m k v) k = some v := by
  induction m with
  | nil => simp [mapSet, mapGet]
  | cons p rest ih =>
    obtain ⟨k', v'⟩ := p
    by_cases h : k' = k
    · simp [mapSet, mapGet, h]
    · simp [mapSet, mapGet, h, ih]

theorem mapGet_mapSet_ne {α : Type} (m : List (String × α)) {k k' : String} (v : α)
    (h : k' ≠ k) : mapGet (mapSet m k' v) k = mapGet m k := by
  induction m with
  | nil => simp [mapSet, mapGet, h]
  | cons p rest ih =>
    obtain ⟨k0, v0⟩ := p
    by_cases h0 : k0 = k'
    · subst h0
      simp [mapSet, mapGet, h]
    · simp [mapSet, h0]
      by_cases h1 : k0 = k
      · simp [mapGet, h1]
      · simp [mapGet, h1, ih]

/-- The key list of an association map, in insertion order. -/
def mapKeys {α : Type} : List (String × α) → List String
  | [] => []
  | (k, _) :: rest => k :: mapKeys rest

theorem mapKeys_mapSet {α : Type} (m : List (String × α)) (k : String) (v : α) :
    mapKeys (mapSet m k v) =
      if k ∈ mapKeys m then mapKeys m else mapKeys m ++ [k] := by
  induction m with
  | nil => simp [mapSet, mapKeys]
  | cons p rest ih =>
    obtain ⟨k0, v0⟩ := p
    by_cases h0 : k0 = k
    · subst h0
      simp [mapSet, mapKeys]
    · have h0s : ¬ (k = k0) := fun h => h0 h.symm
      simp [mapSet, mapKeys, h0, h0s, ih]
      by_cases hk : k ∈ mapKeys rest
      · simp [hk]
      · simp [hk, mapKeys]

theorem keys_nodup_mapSet {α : Type} (m : List (String × α)) (k : String) (v : α)
    (h : (mapKeys m).Nodup) : (mapKeys (mapSet m k v)).Nodup := by
  rw [mapKeys_mapSet]
  by_cases hk : k ∈ mapKeys m
  · simp [hk, h]
  · simp [hk, h, List.nodup_append]

theorem mapGet_mem {α : Type} (m : List (String × α)) (k : String) (v : α)
    (h : mapGet m k = some v) : (k, v) ∈ m := by
  induction m with
  | nil => simp [mapGet] at h
  | cons p rest ih =>
    obtain ⟨k0, v0⟩ := p
    by_cases h0 : k0 = k
    · subst h0
      simp [mapGet] at h
      simp [h]
    · simp [mapGet, h0] at h
      simp [ih h]

-- ===========================================================================
-- types.ts — entity model
-- ===========================================================================

/-- `DiscourseNode` from `types.ts`: the parsed, indexed node. -/
structure DiscourseNode where
  uid : String
  nodeType : Option String
  title : String
  titleClean : String
  content : String
  creator : String
  created : String
  modified : String
  linkedNodeUids : List String
  imageUrls : List String
  url : String
deriving DecidableEq, Repr

/-- `RelationDef` from `types.ts`. -/
structure RelationDef where
  uid : String
  label : String
  domainUid : String
  rangeUid : String
  domainLabel : String
  rangeLabel : String
deriving DecidableEq, Repr

/-- `RelationInstance` from `types.ts`. -/
structure RelationInstance where
  predicateUid : String
  sourceUid : String
  destinationUid : String
  label : String
deriving DecidableEq, Repr

/-- `NodeSchema` from `types.ts`. -/
structure NodeSchema where
  uid : String
  label : String
  nodeType : Option String
deriving DecidableEq, Repr

/-- A raw `@graph` entry.  The JS objects are duck-typed (discriminated by the
`"@type"` string and by presence of a `title` field); one flat record with an
optional `title` models every raw shape, fields that a given shape lacks are
simply the empty string / empty list. -/
structure RawEntry where
  atType : String
  atId : String
  title : Option String
  content : String
  creator : String
  created : String
  modified : String
  textRefersToNode : List String
  label : String
  domain : String
  range : String
  predicate : String
  source : String
  destination : String
deriving DecidableEq, Repr

-- ===========================================================================
-- dataLoader.ts — string helpers and the two-pass load
-- ===========================================================================

/-- JS `String.prototype.trim`: drop whitespace from both ends.  (Character
lists are used throughout instead of the core `String` primitives, whose
well-founded-recursion definitions do not reduce inside the kernel.) -/
def trimChars (cs : List Char) : List Char :=
  ((cs.dropWhile Char.isWhitespace).reverse.dropWhile Char.isWhitespace).reverse

def trimString (s : String) : String := String.mk (trimChars s.toList)

/-- `extractUid`: regex `^pages:(.+)$` — strip a `pages:` prefix when a
nonempty remainder follows, otherwise return the input unchanged. -/
def extractUid (atId : String) : String :=
  match atId.toList with
  | 'p' :: 'a' :: 'g' :: 'e' :: 's' :: ':' :: rest =>
    if rest = [] then atId else String.mk rest
  | _ => atId

/-- `extractRefUid`: regex `^page:(.+)$` (singular prefix). -/
def extractRefUid (ref : String) : String :=
  match ref.toList with
  | 'p' :: 'a' :: 'g' :: 'e' :: ':' :: rest =>
    if rest = [] then ref else String.mk rest
  | _ => ref

/-- Type guards from `dataLoader.ts`, discriminating on the `"@type"` field. -/
def isNodeSchema (e : RawEntry) : Bool := e.atType = "nodeSchema"

def isRelationDef (e : RawEntry) : Bool := e.atType = "relationDef"

def isRelationInstance (e : RawEntry) : Bool := e.atType = "relationInstance"

/-- `isDiscourseNode`: has a `title` field and is none of the special types. -/
def isDiscourseNode (e : RawEntry) : Bool :=
  e.title.isSome ∧ e.atType ≠ "nodeSchema" ∧ e.atType ≠ "relationDef" ∧
    e.atType ≠ "relationInstance"

/-- `extractNodeType`: regex `^\[\[([A-Z]{3})\]\]` on the title. -/
def extractNodeType (title : String) : Option String :=
  match title.toList with
  | '[' :: '[' :: a :: b :: c :: ']' :: ']' :: _ =>
    if a.isUpper ∧ b.isUpper ∧ c.isUpper then some (String.mk [a, b, c]) else none
  | _ => none

/-- `cleanTitle`: `title.replace(/^\[\[[A-Z]{3}\]\]\s*-?\s*/, "").trim()`. -/
def cleanTitle (title : String) : String :=
  match title.toList with
  | '[' :: '[' :: a :: b :: c :: ']' :: ']' :: rest =>
    if a.isUpper ∧ b.isUpper ∧ c.isUpper then
      let r1 := rest.dropWhile Char.isWhitespace
      let r2 := match r1 with
        | '-' :: t => t.dropWhile Char.isWhitespace
        | _ => r1
      String.mk (trimChars r2)
    else trimString title
  | _ => trimString title

/-- `buildUrl`. -/
def buildUrl (uid : String) : String :=
  "https://roamresearch.com/#/app/akamatsulab/page/" ++ uid

/-- `schemaUidToNodeType`: regex `^_([A-Z]{3})-node$`. -/
def schemaUidToNodeType (schemaUid : String) : Option String :=
  match schemaUid.toList with
  | '_' :: a :: b :: c :: '-' :: 'n' :: 'o' :: 'd' :: 'e' :: [] =>
    if a.isUpper ∧ b.isUpper ∧ c.isUpper then some (String.mk [a, b, c]) else none
  | _ => none

/-- `parseNode`.  `eiu` stands for `extractImageUrls` from `imageParser.ts`,
a module that is not part of the embedded core; every theorem below holds for
an arbitrary image extractor, so it is passed as a parameter. -/
def parseNode (eiu : String → List String) (raw : RawEntry) : DiscourseNode :=
  let uid := extractUid raw.atId
  let t := raw.title.getD ""
  { uid := uid
    nodeType := extractNodeType t
    title := t
    titleClean := cleanTitle t
    content := raw.content
    creator := raw.creator
    created := raw.created
    modified := raw.modified
    linkedNodeUids := raw.textRefersToNode.map extractRefUid
    imageUrls := eiu raw.content
    url := buildUrl uid }

/-- `DataStore` from `dataLoader.ts`. -/
structure DataStore where
  nodesByUid : List (String × DiscourseNode)
  nodesByCreator : List (String × List DiscourseNode)
  allNodes : List DiscourseNode
  allCreators : List String
  relationDefs : List (String × RelationDef)
  relationsBySource : List (String × List RelationInstance)
  relationsByDestination : List (String × List RelationInstance)
  allRelations : List RelationInstance
  nodeSchemas : List (String × NodeSchema)
deriving DecidableEq, Repr

/-- Accumulator of the first pass over `@graph`. -/
structure Pass1State where
  nodeSchemas : List (String × NodeSchema)
  relationDefs : List (String × RelationDef)
deriving Repr

/-- First pass of `loadData`: register node schemas and relation definitions
(first occurrence of a definition uid wins). -/
def pass1Step (st : Pass1State) (e : RawEntry) : Pass1State :=
  if isNodeSchema e then
    let uid := extractUid e.atId
    let schema : NodeSchema :=
      { uid := uid, label := e.label, nodeType := schemaUidToNodeType uid }
    { st with nodeSchemas := mapSet st.nodeSchemas uid schema }
  else if isRelationDef e then
    let uid := extractUid e.atId
    if (mapGet st.relationDefs uid).isSome then st
    else
      let relDef : RelationDef :=
        { uid := uid, label := e.label, domainUid := extractUid e.domain,
          rangeUid := extractUid e.range, domainLabel := "", rangeLabel := "" }
      { st with relationDefs := mapSet st.relationDefs uid relDef }
  else st

def pass1 (graph : List RawEntry) : Pass1State :=
  graph.foldl pass1Step ⟨[], []⟩

/-- Resolve `domainLabel`/`rangeLabel` from the schema map.  The JS fallback is
`domainSchema?.label || relDef.domainUid`: an *empty* schema label is falsy and
also falls back to the raw uid. -/
def resolveRelDef (schemas : List (String × NodeSchema)) (rd : RelationDef) : RelationDef :=
  let dl := match mapGet schemas rd.domainUid with
    | some s => if s.label = "" then rd.domainUid else s.label
    | none => rd.domainUid
  let rl := match mapGet schemas rd.rangeUid with
    | some s => if s.label = "" then rd.rangeUid else s.label
    | none => rd.rangeUid
  { rd with domainLabel := dl, rangeLabel := rl }

def resolvedRelationDefs (graph : List RawEntry) : List (String × RelationDef) :=
  (pass1 graph).relationDefs.map
    (fun p => (p.1, resolveRelDef (pass1 graph).nodeSchemas p.2))

/-- Accumulator of the second pass over `@graph`. -/
structure LoadState where
  nodesByUid : List (String × DiscourseNode)
  nodesByCreator : List (String × List DiscourseNode)
  allNodes : List DiscourseNode
  relationsBySource : List (String × List RelationInstance)
  relationsByDestination : List (String × List RelationInstance)
  allRelations : List RelationInstance
deriving Repr

/-- Second pass of `loadData`: index nodes and relation instances.  The JS
label fallback is `relDef?.label || "unknown"`: a present definition with an
empty label is falsy and also yields the `"unknown"` sentinel. -/
def pass2Step (eiu : String → List String) (relationDefs : List (String × RelationDef))
    (st : LoadState) (e : RawEntry) : LoadState :=
  if isDiscourseNode e then
    let node := parseNode eiu e
    let creatorNodes := ((mapGet st.nodesByCreator node.creator).getD []) ++ [node]
    { st with
      nodesByUid := mapSet st.nodesByUid node.uid node,
      nodesByCreator := mapSet st.nodesByCreator node.creator creatorNodes,
      allNodes := st.allNodes ++ [node] }
  else if isRelationInstance e then
    let predicateUid := extractUid e.predicate
    let sourceUid := extractUid e.source
    let destinationUid := extractUid e.destination
    let label := match mapGet relationDefs predicateUid with
      | some rd => if rd.label = "" then "unknown" else rd.label
      | none => "unknown"
    let relation : RelationInstance :=
      { predicateUid := predicateUid, sourceUid := sourceUid,
        destinationUid := destinationUid, label := label }
    let sourceRelations := ((mapGet st.relationsBySource sourceUid).getD []) ++ [relation]
    let destRelations :=
      ((mapGet st.relationsByDestination destinationUid).getD []) ++ [relation]
    { st with
      relationsBySource := mapSet st.relationsBySource sourceUid sourceRelations,
      relationsByDestination := mapSet st.relationsByDestination destinationUid destRelations,
      allRelations := st.allRelations ++ [relation] }
  else st

def pass2 (eiu : String → List String) (relationDefs : List (String × RelationDef))
    (graph : List RawEntry) : LoadState :=
  graph.foldl (pass2Step eiu relationDefs) ⟨[], [], [], [], [], []⟩

/-- `loadData` from `dataLoader.ts`, minus the filesystem read and JSON parse
(the already-parsed `@graph` list is the input, per the spec's interface).
`allCreators` sorts key strings; JS sorts by UTF-16 units, modelled by Lean's
lexicographic string order. -/
def loadData (eiu : String → List String) (graph : List RawEntry) : DataStore :=
  let defs := resolvedRelationDefs graph
  let st := pass2 eiu defs graph
  { nodesByUid := st.nodesByUid
    nodesByCreator := st.nodesByCreator
    allNodes := st.allNodes
    allCreators := (st.nodesByCreator.map Prod.fst).mergeSort (fun a b => a ≤ b)
    relationDefs := defs
    relationsBySource := st.relationsBySource
    relationsByDestination := st.relationsByDestination
    allRelations := st.allRelations
    nodeSchemas := (pass1 graph).nodeSchemas }

-- ===========================================================================
-- C1 — uid uniqueness after load
-- ===========================================================================

theorem pass2Step_nodesByUid_keys_nodup (eiu : String → List String)
    (defs : List (String × RelationDef)) (st : LoadState) (e : RawEntry)
    (h : (mapKeys st.nodesByUid).Nodup) :
    (mapKeys (pass2Step eiu defs st e).nodesByUid).Nodup := by
  unfold pass2Step
  split_ifs with h1 h2
  · exact keys_nodup_mapSet _ _ _ h
  · exact h
  · exact h

theorem pass2_nodesByUid_keys_nodup (eiu : String → List String)
    (defs : List (String × RelationDef)) (graph : List RawEntry) :
    ∀ (st : LoadState), (mapKeys st.nodesByUid).Nodup →
      (mapKeys (graph.foldl (pass2Step eiu defs) st).nodesByUid).Nodup := by
  induction graph with
  | nil => intro st h; simpa using h
  | cons e rest ih =>
    intro st h
    simp only [List.foldl_cons]
    exact ih _ (pass2Step_nodesByUid_keys_nodup eiu defs st e h)

/-- What one load step does to the binding of a fixed `uid`. -/
theorem pass2Step_nodesByUid_get (eiu : String → List String)
    (defs : List (String × RelationDef)) (st : LoadState) (e : RawEntry) (uid : String) :
    mapGet (pass2Step eiu defs st e).nodesByUid uid =
      if isDiscourseNode e ∧ extractUid e.atId = uid then some (parseNode eiu e)
      else mapGet st.nodesByUid uid := by
  by_cases h1 : isDiscourseNode e
  · by_cases h2 : extractUid e.atId = uid
    · simp only [pass2Step, h1, if_true, h2, and_true, if_pos]
      have huid : (parseNode eiu e).uid = extractUid e.atId := rfl
      rw [show (parseNode eiu e).uid = uid from by rw [huid, h2]]
      exact mapGet_mapSet_self _ _ _
    · simp only [pass2Step, h1, if_true, true_and, h2, if_false]
      have hne : (parseNode eiu e).uid ≠ uid := by
        intro hcontra
        exact h2 (by rw [show extractUid e.atId = (parseNode eiu e).uid from rfl, hcontra])
      exact mapGet_mapSet_ne _ _ hne
  · simp only [pass2Step, h1, if_false, Bool.false_eq_true, false_and]
    by_cases h3 : isRelationInstance e
    · simp [h3]
    · simp [h3]

theorem pass2_nodesByUid_get (eiu : String → List String)
    (defs : List (String × RelationDef)) (graph : List RawEntry) :
    ∀ (st : LoadState) (uid : String),
      mapGet (graph.foldl (pass2Step eiu defs) st).nodesByUid uid =
        graph.foldl
          (fun acc e =>
            if isDiscourseNode e ∧ extractUid e.atId = uid then some (parseNode eiu e)
            else acc)
          (mapGet st.nodesByUid uid) := by
  induction graph with
  | nil => intro st uid; rfl
  | cons e rest ih =>
    intro st uid
    simp only [List.foldl_cons]
    rw [ih]
    rw [pass2Step_nodesByUid_get]

/-- The record that the last raw node entry carrying `uid` parses to (`none`
when no node entry carries it) — "later entry wins". -/
def lastNodeRecord (eiu : String → List String) (graph : List RawEntry)
    (uid : String) : Option DiscourseNode :=
  graph.foldl
    (fun acc e =>
      if isDiscourseNode e ∧ extractUid e.atId = uid then some (parseNode eiu e)
      else acc)
    none

/-- C1 (amended) — in the uid-keyed index, uids are unique and a duplicated
uid resolves to the record of the *last* raw node entry that carried it
(last-write-wins); the claim's further assertion about `allNodes` and the
creator grouping is refuted separately. -/
theorem loadData_nodesByUid_last_write_wins (eiu : String → List String)
    (graph : List RawEntry) (uid : String) :
    (mapKeys (loadData eiu graph).nodesByUid).Nodup ∧
      mapGet (loadData eiu graph).nodesByUid uid = lastNodeRecord eiu graph uid := by
  constructor
  · exact pass2_nodesByUid_keys_nodup eiu _ graph _ (by simp [mapKeys])
  · have h := pass2_nodesByUid_get eiu (resolvedRelationDefs graph) graph
      ⟨[], [], [], [], [], []⟩ uid
    exact h

/-- C1 (counterexample) — two raw node entries with the same `@id` but
different titles: after the load, the all-nodes list contains two *distinct*
node records with the *same* uid, so uid is not unique in every query
structure derived from the load. -/
theorem loadData_allNodes_duplicate_uid :
    let e1 : RawEntry :=
      { atType := "pages:t1", atId := "pages:A", title := some "[[RES]] - alpha",
        content := "body one", creator := "meg", created := "2023-01-01",
        modified := "2023-01-02", textRefersToNode := [], label := "", domain := "",
        range := "", predicate := "", source := "", destination := "" }
    let e2 : RawEntry :=
      { atType := "pages:t2", atId := "pages:A", title := some "[[CLM]] - beta",
        content := "body two", creator := "meg", created := "2023-02-01",
        modified := "2023-02-02", textRefersToNode := [], label := "", domain := "",
        range := "", predicate := "", source := "", destination := "" }
    let ds := loadData (fun _ => []) [e1, e2]
    (ds.allNodes.map (fun n => n.uid)) = ["A", "A"] ∧
      ¬ (ds.allNodes.map (fun n => n.uid)).Nodup ∧ ds.allNodes.Nodup ∧
      ¬ ((mapGet ds.nodesByCreator "meg").getD []).map (fun n => n.uid) = ["A"] := by
  decide

-- ===========================================================================
-- C8 — relation instances with unknown predicates
-- ===========================================================================

theorem isRelationInstance_not_node (e : RawEntry)
    (h : isRelationInstance e = true) : isDiscourseNode e = false := by
  unfold isRelationInstance at h
  unfold isDiscourseNode
  simp at h
  simp [h]

theorem getD_mapGet_mapSet_self {α : Type} (m : List (String × List α)) (k : String)
    (v : List α) : (mapGet (mapSet m k v) k).getD [] = v := by
  rw [mapGet_mapSet_self]
  rfl

theorem pass2Step_relations_mono (eiu : String → List String)
    (defs : List (String × RelationDef)) (st : LoadState) (e : RawEntry)
    (r : RelationInstance) (k : String) :
    (r ∈ st.allRelations → r ∈ (pass2Step eiu defs st e).allRelations) ∧
      (r ∈ (mapGet st.relationsBySource k).getD [] →
        r ∈ (mapGet (pass2Step eiu defs st e).relationsBySource k).getD []) ∧
      (r ∈ (mapGet st.relationsByDestination k).getD [] →
        r ∈ (mapGet (pass2Step eiu defs st e).relationsByDestination k).getD []) := by
  by_cases h1 : isDiscourseNode e
  · simp [pass2Step, h1]
  · simp only [pass2Step, h1, if_false, Bool.false_eq_true]
    by_cases h2 : isRelationInstance e
    · simp only [h2, if_true]
      refine ⟨fun h => ?_, fun h => ?_, fun h => ?_⟩
      · simp
        exact Or.inl h
      · by_cases hk : extractUid e.source = k
        · subst hk
          simp only [getD_mapGet_mapSet_self]
          exact List.mem_append_left _ h
        · rw [mapGet_mapSet_ne _ _ hk]
          exact h
      · by_cases hk : extractUid e.destination = k
        · subst hk
          simp only [getD_mapGet_mapSet_self]
          exact List.mem_append_left _ h
        · rw [mapGet_mapSet_ne _ _ hk]
          exact h
    · simp [h2]
  
theorem pass2_relations_mono (eiu : String → List String)
    (defs : List (String × RelationDef)) (graph : List RawEntry) :
    ∀ (st : LoadState) (r : RelationInstance) (k k' : String),
      (r ∈ st.allRelations ∧ r ∈ (mapGet st.relationsBySource k).getD [] ∧
        r ∈ (mapGet st.relationsByDestination k').getD []) →
      (r ∈ (graph.foldl (pass2Step eiu defs) st).allRelations ∧
        r ∈ (mapGet (graph.foldl (pass2Step eiu defs) st).relationsBySource k).getD [] ∧
        r ∈ (mapGet (graph.foldl (pass2Step eiu defs) st).relationsByDestination k').getD []) := by
  induction graph with
  | nil => intro st r k k' h; simpa using h
  | cons e rest ih =>
    intro st r k k' h
    simp only [List.foldl_cons]
    refine ih _ r k k' ⟨?_, ?_, ?_⟩
    · exact (pass2Step_relations_mono eiu defs st e r k).1 h.1
    · exact (pass2Step_relations_mono eiu defs st e r k).2.1 h.2.1
    · exact (pass2Step_relations_mono eiu defs st e r k').2.2 h.2.2

theorem pass2Step_inserts_relation (eiu : String → List String)
    (defs : List (String × RelationDef)) (st : LoadState) (e : RawEntry)
    (hinst : isRelationInstance e = true)
    (hmiss : mapGet defs (extractUid e.predicate) = none) :
    let r : RelationInstance :=
      { predicateUid := extractUid e.predicate, sourceUid := extractUid e.source,
        destinationUid := extractUid e.destination, label := "unknown" }
    r ∈ (pass2Step eiu defs st e).allRelations ∧
      r ∈ (mapGet (pass2Step eiu defs st e).relationsBySource (extractUid e.source)).getD [] ∧
      r ∈ (mapGet (pass2Step eiu defs st e).relationsByDestination
            (extractUid e.destination)).getD [] := by
  intro r
  have h1 : isDiscourseNode e = false := isRelationInstance_not_node e hinst
  simp only [pass2Step, h1, if_false, Bool.false_eq_true, hinst, if_true, hmiss]
  refine ⟨by simp, ?_, ?_⟩
  · simp only [getD_mapGet_mapSet_self]
    simp
  · simp only [getD_mapGet_mapSet_self]
    simp

/-- C8 — a relation-instance entry whose predicate uid has no registered
relation definition is still inserted into the flat relation list and both
direction groupings, with the sentinel label `"unknown"`. -/
theorem loadData_unknown_predicate_inserted (eiu : String → List String)
    (graph : List RawEntry) (e : RawEntry) (he : e ∈ graph)
    (hinst : isRelationInstance e = true)
    (hmiss : mapGet (resolvedRelationDefs graph) (extractUid e.predicate) = none) :
    let r : RelationInstance :=
      { predicateUid := extractUid e.predicate, sourceUid := extractUid e.source,
        destinationUid := extractUid e.destination, label := "unknown" }
    r ∈ (loadData eiu graph).allRelations ∧
      r ∈ (mapGet (loadData eiu graph).relationsBySource (extractUid e.source)).getD [] ∧
      r ∈ (mapGet (loadData eiu graph).relationsByDestination
            (extractUid e.destination)).getD [] := by
  intro r
  obtain ⟨s, t, hsplit⟩ := List.append_of_mem he
  show r ∈ (pass2 eiu (resolvedRelationDefs graph) graph).allRelations ∧
      r ∈ (mapGet (pass2 eiu (resolvedRelationDefs graph) graph).relationsBySource
            (extractUid e.source)).getD [] ∧
      r ∈ (mapGet (pass2 eiu (resolvedRelationDefs graph) graph).relationsByDestination
            (extractUid e.destination)).getD []
  unfold pass2
  set defs := resolvedRelationDefs graph with hdefs
  rw [hsplit, List.foldl_append, List.foldl_cons]
  apply pass2_relations_mono
  exact pass2Step_inserts_relation eiu defs _ e hinst hmiss

/-- C8 (witness) — a concrete load with a single dangling relation instance. -/
theorem loadData_unknown_predicate_inserted_witness :
    let e : RawEntry :=
      { atType := "relationInstance", atId := "", title := none, content := "",
        creator := "", created := "", modified := "", textRefersToNode := [],
        label := "", domain := "", range := "", predicate := "pages:P",
        source := "pages:A", destination := "pages:B" }
    let r : RelationInstance :=
      { predicateUid := "P", sourceUid := "A", destinationUid := "B",
        label := "unknown" }
    r ∈ (loadData (fun _ => []) [e]).allRelations ∧
      r ∈ (mapGet (loadData (fun _ => []) [e]).relationsBySource "A").getD [] ∧
      r ∈ (mapGet (loadData (fun _ => []) [e]).relationsByDestination "B").getD [] := by
  intro e r
  exact loadData_unknown_predicate_inserted (fun _ => []) [e] e (by decide)
    (by decide) (by decide)

-- ===========================================================================
-- search.ts — keyword search
-- ===========================================================================

/-- JS string lowering (`toLowerCase`), character by character. -/
def toLowerString (s : String) : String := String.mk (s.toList.map Char.toLower)

def isPrefixOfChars : List Char → List Char → Bool
  | [], _ => true
  | _ :: _, [] => false
  | p :: ps, c :: cs => p = c && isPrefixOfChars ps cs

/-- JS `String.prototype.includes`: `pat` occurs contiguously in the text. -/
def isSubstrChars (pat : List Char) : List Char → Bool
  | [] => isPrefixOfChars pat []
  | c :: rest => isPrefixOfChars pat (c :: rest) || isSubstrChars pat rest

def containsSubstr (s pat : String) : Bool := isSubstrChars pat.toList s.toList

/-- JS `split(/\s+/)`: split at every whitespace character (runs produce empty
pieces, which every caller filters away just as the JS pipeline does). -/
def splitOnWhitespace : List Char → List Char → List String
  | [], acc => [String.mk acc.reverse]
  | c :: rest, acc =>
    if c.isWhitespace then String.mk acc.reverse :: splitOnWhitespace rest []
    else splitOnWhitespace rest (c :: acc)

/-- JS truthiness of an optional-string tool argument: absent or empty string
is falsy (`!arg`), so an empty-string filter is inactive. -/
def truthyOpt (o : Option String) : Option String :=
  match o with
  | some s => if s = "" then none else some s
  | none => none

/-- `matchesQuery` from `search.ts`: every query word occurs in the lowered
`title ++ " " ++ content`. -/
def matchesQuery (node : DiscourseNode) (queryWords : List String) : Bool :=
  let searchableText := toLowerString (node.title ++ " " ++ node.content)
  queryWords.all (fun word => containsSubstr searchableText word)

/-- Regex step `^---[\s\S]*?---\n?` of `createSnippet`: consume lazily through
the first later `---`. -/
def dropThroughDashes : List Char → Option (List Char)
  | '-' :: '-' :: '-' :: rest => some rest
  | _ :: rest => dropThroughDashes rest
  | [] => none

def stripFrontmatter (cs : List Char) : List Char :=
  match cs with
  | '-' :: '-' :: '-' :: rest =>
    (match dropThroughDashes rest with
     | some rem =>
       match rem with
       | '\n' :: r => r
       | _ => rem
     | none => cs)
  | _ => cs

/-- Scan through the first `)` on the same line (regex `.*?\)` — `.` does not
match a newline). -/
def scanCloseParen : List Char → Option (List Char)
  | [] => none
  | c :: rest =>
    if c = ')' then some rest
    else if c = '\n' then none
    else scanCloseParen rest

/-- Scan through the first `](` on the same line (regex `.*?\]\(`). -/
def scanBracketParen : List Char → Option (List Char)
  | x :: y :: rest =>
    if x = ']' ∧ y = '(' then some rest
    else if x = '\n' then none
    else scanBracketParen (y :: rest)
  | _ => none

theorem scanCloseParen_length (cs r : List Char) (h : scanCloseParen cs = some r) :
    r.length < cs.length := by
  induction cs with
  | nil => simp [scanCloseParen] at h
  | cons c rest ih =>
    by_cases h1 : c = ')'
    · simp [scanCloseParen, h1] at h
      simp [← h]
    · by_cases h2 : c = '\n'
      · simp [scanCloseParen, h1, h2] at h
      · simp only [scanCloseParen, h1, h2, if_false] at h
        exact Nat.lt_trans (ih h) (Nat.lt_succ_self _)

theorem scanBracketParen_length (cs r : List Char) (h : scanBracketParen cs = some r) :
    r.length < cs.length := by
  induction cs with
  | nil => simp [scanBracketParen] at h
  | cons x rest ih =>
    match rest, ih with
    | [], _ => simp [scanBracketParen] at h
    | y :: rest2, ih =>
      by_cases h1 : x = ']' ∧ y = '('
      · simp [scanBracketParen, h1] at h
        simp [← h]
        omega
      · by_cases h2 : x = '\n'
        · simp [scanBracketParen, h1, h2] at h
        · simp only [scanBracketParen, h1, h2, if_false] at h
          exact Nat.lt_trans (ih h) (Nat.lt_succ_self _)

/-- Global regex replace `!\[.*?\]\(.*?\)` → `"[image]"` of `createSnippet`,
scanning left to right as the JS regex engine does (after a failed match at
`!`, the scan resumes one character later). -/
def replaceImages : List Char → List Char
  | [] => []
  | '!' :: '[' :: r0 =>
    (match hb : scanBracketParen r0 with
     | some r1 =>
       (match hc : scanCloseParen r1 with
        | some r2 => '[' :: 'i' :: 'm' :: 'a' :: 'g' :: 'e' :: ']' :: replaceImages r2
        | none => '!' :: replaceImages ('[' :: r0))
     | none => '!' :: replaceImages ('[' :: r0))
  | c :: rest => c :: replaceImages rest
termination_by cs => cs.length
decreasing_by
  all_goals simp_wf
  · have hb1 := scanBracketParen_length _ _ hb
    have hc1 := scanCloseParen_length _ _ hc
    omega
  all_goals omega

theorem length_dropWhile_le_self (p : Char → Bool) (l : List Char) :
    (l.dropWhile p).length ≤ l.length := by
  induction l with
  | nil => simp
  | cons c rest ih =>
    by_cases h : p c
    · simp only [List.dropWhile, h, List.length_cons]
      omega
    · simp only [List.dropWhile, h, Bool.false_eq_true]
      simp

/-- Regex replace `\s+` → `" "` of `createSnippet`. -/
def collapseWs : List Char → List Char
  | [] => []
  | c :: rest =>
    if c.isWhitespace then ' ' :: collapseWs (rest.dropWhile Char.isWhitespace)
    else c :: collapseWs rest
termination_by cs => cs.length
decreasing_by
  all_goals simp_wf
  all_goals first
    | (have hdw := length_dropWhile_le_self Char.isWhitespace rest
       omega)
    | omega

/-- `createSnippet` from `search.ts` (the JS `maxLength` default `200` is
passed explicitly by the caller here). -/
def createSnippet (content : String) (maxLength : Nat) : String :=
  let c1 := trimChars (stripFrontmatter content.toList)
  let c2 := replaceImages c1
  let c3 := collapseWs c2
  if maxLength < c3.length then String.mk (trimChars (c3.take maxLength)) ++ "..."
  else String.mk c3

inductive OrderBy where
  | created
  | modified
  | title
deriving DecidableEq, Repr

inductive SortDirection where
  | asc
  | desc
deriving DecidableEq, Repr

/-- JS string comparison for the sort comparator.  `localeCompare` is
locale-sensitive; it is modelled by plain lexicographic order (none of the
verified properties depend on the collation). -/
def compareStrings (a b : String) : Int :=
  if a < b then -1 else if b < a then 1 else 0

def searchComparator (orderBy : OrderBy) (a b : DiscourseNode) : Int :=
  match orderBy with
  | OrderBy.created => compareStrings a.created b.created
  | OrderBy.modified => compareStrings a.modified b.modified
  | OrderBy.title => compareStrings (toLowerString a.titleClean) (toLowerString b.titleClean)

/-- `SearchResult` from `search.ts` (keyword variant, no score field). -/
structure SearchResult where
  uid : String
  nodeType : Option String
  title : String
  creator : String
  created : String
  snippet : String
  imageCount : Nat
deriving DecidableEq, Repr

/-- `searchNodes` from `search.ts` — keyword search: a node matches when every
query word is a substring of its lowered title/content; optional filters;
optional stable sort; truncation to `limit`. -/
def searchNodes (dataStore : DataStore) (query : String) (nodeType : Option String)
    (creator : Option String) (orderBy : Option OrderBy)
    (sortDirection : SortDirection) (limit : Nat) : List SearchResult :=
  let queryWords :=
    (splitOnWhitespace (toLowerString query).toList []).filter (fun w => 0 < w.length)
  let results := ((dataStore.allNodes.filter
      (fun node => matchesQuery node queryWords)).filter
      (fun node => match truthyOpt nodeType with
        | none => true
        | some t => node.nodeType = some t)).filter
      (fun node => match truthyOpt creator with
        | none => true
        | some c => containsSubstr (toLowerString node.creator) (toLowerString c))
  let sorted := match orderBy with
    | none => results
    | some ob =>
      results.mergeSort (fun a b =>
        (match sortDirection with
         | SortDirection.asc => searchComparator ob a b
         | SortDirection.desc => -(searchComparator ob a b)) ≤ 0)
  (sorted.take limit).map (fun node =>
    { uid := node.uid, nodeType := node.nodeType, title := node.titleClean,
      creator := node.creator, created := node.created,
      snippet := createSnippet node.content 200, imageCount := node.imageUrls.length })

-- ===========================================================================
-- BM25 search implementation (the BM25-based `searchNodes` source file)
-- ===========================================================================

namespace BM25

/-- BM25 parameters from the source head. -/
def K1 : ℚ := 3 / 2

def B : ℚ := 3 / 4

def TITLE_BOOST : ℚ := 2

/-- JS `\w` (ASCII word character). -/
def isWordChar (c : Char) : Bool := c.isAlphanum || c = '_'

/-- `tokenize`: lower-case, replace every non-word non-space character by a
space, split on whitespace, keep only tokens longer than one character. -/
def tokenize (text : String) : List String :=
  let replaced :=
    (toLowerString text).toList.map (fun c => if isWordChar c || c.isWhitespace then c else ' ')
  (splitOnWhitespace replaced []).filter (fun w => 1 < w.length)

/-- `countTerms`: term-frequency map of a token list. -/
def countTerms (tokens : List String) : List (String × Nat) :=
  tokens.foldl (fun counts token => mapSet counts token ((mapGet counts token).getD 0 + 1)) []

/-- The per-document record stored in `BM25Index.docs`. -/
structure DocData where
  terms : List (String × Nat)
  length : Nat
  titleTerms : List (String × Nat)
  titleLength : Nat
deriving DecidableEq, Repr

/-- `BM25Index`. -/
structure BM25Index where
  docFreq : List (String × Nat)
  avgDocLength : ℚ
  numDocs : Nat
  docs : List (String × DocData)
deriving DecidableEq, Repr

/-- JS `Set` iteration order: first occurrences, in order. -/
def uniqueTokens (l : List String) : List String :=
  l.foldl (fun acc t => if t ∈ acc then acc else acc ++ [t]) []

/-- `buildBM25Index`. -/
def buildBM25Index (dataStore : DataStore) : BM25Index :=
  let step := fun (acc : (List (String × Nat)) × (List (String × DocData)) × Nat)
      (node : DiscourseNode) =>
    let contentTokens := tokenize node.content
    let titleTokens := tokenize node.title
    let allTokens := contentTokens ++ titleTokens
    let terms := countTerms allTokens
    let titleTerms := countTerms titleTokens
    let docFreq := (uniqueTokens allTokens).foldl
      (fun m term => mapSet m term ((mapGet m term).getD 0 + 1)) acc.1
    let docs := mapSet acc.2.1 node.uid
      { terms := terms, length := allTokens.length, titleTerms := titleTerms,
        titleLength := titleTokens.length }
    (docFreq, docs, acc.2.2 + allTokens.length)
  let r := dataStore.allNodes.foldl step ([], [], 0)
  { docFreq := r.1,
    avgDocLength := (r.2.2 : ℚ) / (dataStore.allNodes.length : ℚ),
    numDocs := dataStore.allNodes.length,
    docs := r.2.1 }

/-- The saturated term-frequency component of the BM25 term score:
`(tf·(k1+1)) / (tf + k1·(1 − b + b·(docLen/avgDocLen)))`. -/
def tfScoreTerm (tf : Nat) (docLen : Nat) (avgDocLen : ℚ) : ℚ :=
  let lengthNorm := 1 - B + B * ((docLen : ℚ) / avgDocLen)
  ((tf : ℚ) * (K1 + 1)) / ((tf : ℚ) + K1 * lengthNorm)

/-- The `idf` argument: `(N − df + 0.5)/(df + 0.5) + 1`. -/
def idfArg (numDocs df : Nat) : ℚ :=
  (((numDocs : ℚ) - (df : ℚ) + 1 / 2) / ((df : ℚ) + 1 / 2)) + 1

/-- One iteration of the scoring loop of `computeBM25Score`. -/
def bm25TermStep (log : ℚ → ℚ) (index : BM25Index) (docData : DocData)
    (score : ℚ) (term : String) : ℚ :=
  let docFreq := (mapGet index.docFreq term).getD 0
  if docFreq = 0 then score
  else
    let idf := log (idfArg index.numDocs docFreq)
    let tf := (mapGet docData.terms term).getD 0
    if tf = 0 then score
    else
      let tfScore := tfScoreTerm tf docData.length index.avgDocLength
      let score1 := score + idf * tfScore
      let titleTf := (mapGet docData.titleTerms term).getD 0
      if 0 < titleTf then score1 + idf * TITLE_BOOST else score1

/-- `computeBM25Score`, with `Math.log` abstracted as `log` and IEEE doubles
modelled by exact rationals. -/
def computeBM25Score (log : ℚ → ℚ) (index : BM25Index) (docData : DocData)
    (queryTerms : List String) : ℚ :=
  queryTerms.foldl (bm25TermStep log index docData) 0

/-- `SearchResult` of the BM25 variant (adds the optional rounded score). -/
structure SearchResult where
  uid : String
  nodeType : Option String
  title : String
  creator : String
  created : String
  snippet : String
  imageCount : Nat
  score : Option ℚ
deriving DecidableEq, Repr

/-- JS `Math.round(x*100)/100`. -/
def roundScore (x : ℚ) : ℚ := (Int.floor (x * 100 + 1 / 2) : ℚ) / 100

/-- `searchNodes` of the BM25 variant.  The module-level memoized index is
modelled by building the index directly when none is supplied (memoization of
a pure function is observationally the function itself). -/
def searchNodes (dataStore : DataStore) (query : String) (nodeType : Option String)
    (creator : Option String) (limit : Nat) (index : Option BM25Index)
    (log : ℚ → ℚ) : List SearchResult :=
  let idx := match index with
    | some i => i
    | none => buildBM25Index dataStore
  let queryTerms := tokenize query
  if queryTerms = [] then []
  else
    let scoredResults := dataStore.allNodes.foldl
      (fun acc node =>
        if (match truthyOpt nodeType with
            | none => false
            | some t => ¬ (node.nodeType = some t)) then acc
        else if (match truthyOpt creator with
            | none => false
            | some c => ¬ (containsSubstr (toLowerString node.creator) (toLowerString c))) then acc
        else
          match mapGet idx.docs node.uid with
          | none => acc
          | some docData =>
            let score := computeBM25Score log idx docData queryTerms
            if 0 < score then acc ++ [(node, score)] else acc) []
    let sorted := scoredResults.mergeSort (fun a b => b.2 ≤ a.2)
    (sorted.take limit).map (fun p =>
      { uid := p.1.uid, nodeType := p.1.nodeType, title := p.1.titleClean,
        creator := p.1.creator, created := p.1.created,
        snippet := createSnippet p.1.content 200, imageCount := p.1.imageUrls.length,
        score := some (roundScore p.2) })

end BM25

-- ===========================================================================
-- C2 — empty / whitespace-only queries
-- ===========================================================================

/-- C2 (amended, confirmed part) — the BM25 `searchNodes` returns the empty
result list whenever the query tokenizes to no terms, regardless of the
store, the category and creator filters, the limit, the supplied index, and
the logarithm. -/
theorem bm25_searchNodes_empty_query_empty (dataStore : DataStore) (query : String)
    (nodeType creator : Option String) (limit : Nat) (index : Option BM25.BM25Index)
    (log : ℚ → ℚ) (h : BM25.tokenize query = []) :
    BM25.searchNodes dataStore query nodeType creator limit index log = [] := by
  unfold BM25.searchNodes
  simp [h]

/-- C2 (witness) — a whitespace-only query tokenizes to nothing and yields no
results from the BM25 search. -/
theorem bm25_searchNodes_empty_query_empty_witness :
    BM25.tokenize "   " = [] ∧
      BM25.searchNodes ⟨[], [], [], [], [], [], [], [], []⟩ "   " none none 10 none
        (fun x => x) = [] :=
  ⟨by decide,
    bm25_searchNodes_empty_query_empty ⟨[], [], [], [], [], [], [], [], []⟩ "   "
      none none 10 none (fun x => x) (by decide)⟩

/-- C2 (counterexample) — the keyword `searchNodes` of `search.ts` does *not*
return zero results on an empty query: with no query words, `matchesQuery` is
vacuously true, so every document (up to the limit) is returned.  Concretely,
a store loaded with one node returns that node for the empty query. -/
theorem searchNodes_empty_query_returns_results :
    let e : RawEntry :=
      { atType := "pages:t", atId := "pages:A", title := some "[[RES]] - alpha",
        content := "some body text", creator := "meg", created := "2023-01-01",
        modified := "2023-01-02", textRefersToNode := [], label := "", domain := "",
        range := "", predicate := "", source := "", destination := "" }
    let ds := loadData (fun _ => []) [e]
    (searchNodes ds "" none none none SortDirection.desc 10).map (fun r => r.uid) =
      ["A"] := by
  decide

-- ===========================================================================
-- C5 — BM25 term-frequency monotonicity; absent terms contribute zero
-- ===========================================================================

/-- C5 — (i) the saturated term-frequency component
`tf·(k1+1)/(tf + k1·(1 − b + b·docLen/avgDocLen))` is monotone non-decreasing
in `tf` for a fixed document length (any positive average length); (ii) a
query term with corpus document frequency zero contributes exactly nothing to
any document's score: deleting it from the query leaves the score unchanged. -/
theorem bm25_tf_monotone_and_absent_term_zero :
    (∀ (docLen : Nat) (avgDocLen : ℚ) (tf1 tf2 : Nat), tf1 ≤ tf2 → 0 < avgDocLen →
      BM25.tfScoreTerm tf1 docLen avgDocLen ≤ BM25.tfScoreTerm tf2 docLen avgDocLen) ∧
    (∀ (log : ℚ → ℚ) (index : BM25.BM25Index) (docData : BM25.DocData) (t : String)
      (pre post : List String), (mapGet index.docFreq t).getD 0 = 0 →
      BM25.computeBM25Score log index docData (pre ++ t :: post) =
        BM25.computeBM25Score log index docData (pre ++ post)) := by
  constructor
  · intro docLen avg tf1 tf2 h1 h2
    unfold BM25.tfScoreTerm
    have hq : (0:ℚ) ≤ (docLen : ℚ) / avg := div_nonneg (by positivity) (le_of_lt h2)
    have hL : (0:ℚ) < 1 - BM25.B + BM25.B * ((docLen : ℚ) / avg) := by
      unfold BM25.B
      nlinarith
    have hc : (0:ℚ) < BM25.K1 * (1 - BM25.B + BM25.B * ((docLen : ℚ) / avg)) := by
      unfold BM25.K1
      nlinarith
    have hd1 : (0:ℚ) < (tf1:ℚ) + BM25.K1 * (1 - BM25.B + BM25.B * ((docLen : ℚ) / avg)) := by
      have : (0:ℚ) ≤ (tf1:ℚ) := by positivity
      linarith
    have hd2 : (0:ℚ) < (tf2:ℚ) + BM25.K1 * (1 - BM25.B + BM25.B * ((docLen : ℚ) / avg)) := by
      have : (0:ℚ) ≤ (tf2:ℚ) := by positivity
      linarith
    rw [div_le_div_iff hd1 hd2]
    have hcast : (tf1 : ℚ) ≤ (tf2 : ℚ) := by exact_mod_cast h1
    have hK : (0:ℚ) < BM25.K1 + 1 := by unfold BM25.K1; norm_num
    nlinarith [mul_le_mul_of_nonneg_right hcast (le_of_lt hc)]
  · intro log index docData t pre post h
    unfold BM25.computeBM25Score
    rw [List.foldl_append, List.foldl_cons, List.foldl_append]
    congr 1
    simp [BM25.bm25TermStep, h]

/-- C5 (witness) — both parts instantiated at concrete inputs. -/
theorem bm25_tf_monotone_and_absent_term_zero_witness :
    ((1 : Nat) ≤ 2 ∧ (0:ℚ) < 2 ∧
      (mapGet (⟨[("aa", 3)], 2, 3, []⟩ : BM25.BM25Index).docFreq "zz").getD 0 = 0) ∧
      BM25.tfScoreTerm 1 4 2 ≤ BM25.tfScoreTerm 2 4 2 ∧
      BM25.computeBM25Score (fun x => x) ⟨[("aa", 3)], 2, 3, []⟩ ⟨[], 0, [], 0⟩
          (["aa"] ++ "zz" :: ["bb"]) =
        BM25.computeBM25Score (fun x => x) ⟨[("aa", 3)], 2, 3, []⟩ ⟨[], 0, [], 0⟩
          (["aa"] ++ ["bb"]) :=
  ⟨⟨by decide, by decide, by decide⟩,
    bm25_tf_monotone_and_absent_term_zero.1 4 2 1 2 (by decide) (by decide),
    bm25_tf_monotone_and_absent_term_zero.2 (fun x => x) ⟨[("aa", 3)], 2, 3, []⟩
      ⟨[], 0, [], 0⟩ "zz" ["aa"] ["bb"] (by decide)⟩

-- ===========================================================================
-- C6 — a title match scores strictly higher
-- ===========================================================================

theorem idfArg_gt_one (N df : Nat) (h : df ≤ N) : 1 < BM25.idfArg N df := by
  unfold BM25.idfArg
  have h1 : (0:ℚ) < (df:ℚ) + 1/2 := by positivity
  have h2 : (0:ℚ) < (N:ℚ) - (df:ℚ) + 1/2 := by
    have : (df:ℚ) ≤ (N:ℚ) := by exact_mod_cast h
    linarith
  have := div_pos h2 h1
  linarith

/-- One scoring step on a document whose title contains `t` dominates the same
step on an otherwise identical document (same term counts, same length) whose
title does not, strictly so at `t` itself. -/
theorem bm25_step_dominates (log : ℚ → ℚ) (index : BM25.BM25Index)
    (d1 d2 : BM25.DocData) (t : String)
    (hlog : ∀ x : ℚ, 1 < x → 0 < log x)
    (hterms : d1.terms = d2.terms) (hlen : d1.length = d2.length)
    (hoff : ∀ s, s ≠ t → (mapGet d1.titleTerms s).getD 0 = (mapGet d2.titleTerms s).getD 0)
    (ht1 : 0 < (mapGet d1.titleTerms t).getD 0)
    (ht2 : (mapGet d2.titleTerms t).getD 0 = 0)
    (hdf : 0 < (mapGet index.docFreq t).getD 0)
    (hdfN : (mapGet index.docFreq t).getD 0 ≤ index.numDocs)
    (htf : 0 < (mapGet d1.terms t).getD 0)
    (term : String) (s1 s2 : ℚ) (hle : s2 ≤ s1) :
    BM25.bm25TermStep log index d2 s2 term ≤ BM25.bm25TermStep log index d1 s1 term ∧
      (s2 < s1 →
        BM25.bm25TermStep log index d2 s2 term < BM25.bm25TermStep log index d1 s1 term) ∧
      (term = t →
        BM25.bm25TermStep log index d2 s2 term < BM25.bm25TermStep log index d1 s1 term) := by
  unfold BM25.bm25TermStep
  rw [← hterms, ← hlen]
  by_cases hdf0 : (mapGet index.docFreq term).getD 0 = 0
  · simp only [hdf0, if_true, if_pos rfl]
    refine ⟨hle, fun h => h, fun heq => ?_⟩
    subst heq
    rw [hdf0] at hdf
    exact absurd hdf (lt_irrefl 0)
  · simp only [hdf0, if_false, if_neg hdf0]
    by_cases htf0 : (mapGet d1.terms term).getD 0 = 0
    · simp only [htf0, if_pos rfl]
      refine ⟨hle, fun h => h, fun heq => ?_⟩
      subst heq
      rw [htf0] at htf
      exact absurd htf (lt_irrefl 0)
    · simp only [if_neg htf0]
      by_cases hteq : term = t
      · subst hteq
        have hidf : 0 < log (BM25.idfArg index.numDocs ((mapGet index.docFreq term).getD 0)) :=
          hlog _ (idfArg_gt_one _ _ hdfN)
        have hboost :
            0 < log (BM25.idfArg index.numDocs ((mapGet index.docFreq term).getD 0)) *
              BM25.TITLE_BOOST := by
          unfold BM25.TITLE_BOOST
          nlinarith
        simp only [if_pos ht1, ht2, lt_self_iff_false, if_false]
        refine ⟨by linarith, fun h => by linarith, fun _ => by linarith⟩
      · have heqtitle := hoff term hteq
        rw [← heqtitle]
        by_cases htt : 0 < (mapGet d1.titleTerms term).getD 0
        · simp only [if_pos htt]
          refine ⟨by linarith, fun h => by linarith, fun heq => absurd heq hteq⟩
        · simp only [if_neg htt]
          refine ⟨by linarith, fun h => by linarith, fun heq => absurd heq hteq⟩

/-- Folding the scoring steps preserves (strict) dominance. -/
theorem bm25_fold_dominates (log : ℚ → ℚ) (index : BM25.BM25Index)
    (d1 d2 : BM25.DocData) (t : String)
    (hlog : ∀ x : ℚ, 1 < x → 0 < log x)
    (hterms : d1.terms = d2.terms) (hlen : d1.length = d2.length)
    (hoff : ∀ s, s ≠ t → (mapGet d1.titleTerms s).getD 0 = (mapGet d2.titleTerms s).getD 0)
    (ht1 : 0 < (mapGet d1.titleTerms t).getD 0)
    (ht2 : (mapGet d2.titleTerms t).getD 0 = 0)
    (hdf : 0 < (mapGet index.docFreq t).getD 0)
    (hdfN : (mapGet index.docFreq t).getD 0 ≤ index.numDocs)
    (htf : 0 < (mapGet d1.terms t).getD 0) :
    ∀ (l : List String) (s1 s2 : ℚ), s2 ≤ s1 →
      (l.foldl (BM25.bm25TermStep log index d2) s2 ≤
        l.foldl (BM25.bm25TermStep log index d1) s1) ∧
      (s2 < s1 →
        l.foldl (BM25.bm25TermStep log index d2) s2 <
          l.foldl (BM25.bm25TermStep log index d1) s1) := by
  intro l
  induction l with
  | nil => intro s1 s2 h; exact ⟨h, fun h2 => h2⟩
  | cons x rest ih =>
    intro s1 s2 h
    simp only [List.foldl_cons]
    have hstep := bm25_step_dominates log index d1 d2 t hlog hterms hlen hoff ht1 ht2
      hdf hdfN htf x s1 s2 h
    exact ⟨(ih _ _ hstep.1).1, fun h2 => (ih _ _ (le_of_lt (hstep.2.1 h2))).2 (hstep.2.1 h2)⟩

/-- C6 — for a query containing a term `t` of nonzero corpus document
frequency, a document whose title contains `t` scores strictly higher than an
otherwise identical document (same term-frequency map, same token length)
whose title does not; the mechanism is the flat `idf·TITLE_BOOST` bonus added
on any title match. -/
theorem bm25_title_match_scores_strictly_higher (log : ℚ → ℚ)
    (index : BM25.BM25Index) (d1 d2 : BM25.DocData) (t : String)
    (queryTerms : List String)
    (hlog : ∀ x : ℚ, 1 < x → 0 < log x)
    (hterms : d1.terms = d2.terms) (hlen : d1.length = d2.length)
    (hoff : ∀ s, s ≠ t → (mapGet d1.titleTerms s).getD 0 = (mapGet d2.titleTerms s).getD 0)
    (ht1 : 0 < (mapGet d1.titleTerms t).getD 0)
    (ht2 : (mapGet d2.titleTerms t).getD 0 = 0)
    (hdf : 0 < (mapGet index.docFreq t).getD 0)
    (hdfN : (mapGet index.docFreq t).getD 0 ≤ index.numDocs)
    (htf : 0 < (mapGet d1.terms t).getD 0)
    (htmem : t ∈ queryTerms) :
    BM25.computeBM25Score log index d2 queryTerms <
      BM25.computeBM25Score log index d1 queryTerms := by
  obtain ⟨l1, l2, rfl⟩ := List.append_of_mem htmem
  unfold BM25.computeBM25Score
  rw [List.foldl_append, List.foldl_cons, List.foldl_append, List.foldl_cons]
  have h1 := (bm25_fold_dominates log index d1 d2 t hlog hterms hlen hoff ht1 ht2
    hdf hdfN htf l1 0 0 (le_refl 0)).1
  have h2 := (bm25_step_dominates log index d1 d2 t hlog hterms hlen hoff ht1 ht2
    hdf hdfN htf t _ _ h1).2.2 rfl
  exact (bm25_fold_dominates log index d1 d2 t hlog hterms hlen hoff ht1 ht2
    hdf hdfN htf l2 _ _ (le_of_lt h2)).2 h2

/-- C6 (witness) — two concrete documents with identical term counts and
length, one with the query term in its title: the strict comparison holds with
the concrete logarithm-like function `x ↦ x − 1` (positive on `x > 1`). -/
theorem bm25_title_match_scores_strictly_higher_witness :
    (0 < (mapGet ([("tt", 1)] : List (String × Nat)) "tt").getD 0 ∧
      ((mapGet ([] : List (String × Nat)) "tt").getD 0 = 0) ∧
      "tt" ∈ ["tt"]) ∧
      BM25.computeBM25Score (fun x => x - 1) ⟨[("tt", 1)], 2, 1, []⟩
          ⟨[("tt", 1), ("xx", 1)], 2, [], 0⟩ ["tt"] <
        BM25.computeBM25Score (fun x => x - 1) ⟨[("tt", 1)], 2, 1, []⟩
          ⟨[("tt", 1), ("xx", 1)], 2, [("tt", 1)], 1⟩ ["tt"] :=
  ⟨⟨by decide, by decide, by decide⟩,
    bm25_title_match_scores_strictly_higher (fun x => x - 1)
      ⟨[("tt", 1)], 2, 1, []⟩
      ⟨[("tt", 1), ("xx", 1)], 2, [("tt", 1)], 1⟩
      ⟨[("tt", 1), ("xx", 1)], 2, [], 0⟩ "tt" ["tt"]
      (fun x hx => by simpa using sub_pos.mpr hx)
      rfl rfl
      (fun s hs => by simp [mapGet, Ne.symm hs])
      (by decide) (by decide) (by decide) (by decide) (by decide) (by decide)⟩

-- ===========================================================================
-- tools.ts — get_linked_nodes
-- ===========================================================================

/-- A handler reply: the `{ error: "Node not found: …", isError: true }`
payload or the successful result. -/
inductive ToolResult (α : Type) where
  | notFound (message : String)
  | ok (value : α)
deriving DecidableEq, Repr

inductive Direction where
  | outgoing
  | incoming
  | both
deriving DecidableEq, Repr

/-- One entry of the `linkedNodes` array built by `handleGetLinkedNodes`. -/
structure LinkedNode where
  uid : String
  nodeType : Option String
  title : String
  creator : String
  direction : String
  relationshipType : Option String
deriving DecidableEq, Repr

structure LinkedNodesResult where
  sourceUid : String
  sourceTitle : String
  linkedNodes : List LinkedNode
  count : Nat
  typedRelationCount : Nat
deriving DecidableEq, Repr

/-- JS truthiness of `n.relationshipType` (absent or empty string is falsy). -/
def relTruthy (o : Option String) : Bool :=
  match o with
  | some s => s ≠ ""
  | none => false

/-- Loop body: outgoing typed relationships. -/
def outRelStep (ds : DataStore) (acc : List LinkedNode × List String)
    (relation : RelationInstance) : List LinkedNode × List String :=
  match mapGet ds.nodesByUid relation.destinationUid with
  | some destNode =>
    if ("out-" ++ destNode.uid) ∈ acc.2 then acc
    else (acc.1 ++ [{ uid := destNode.uid, nodeType := destNode.nodeType,
                      title := destNode.titleClean, creator := destNode.creator,
                      direction := "outgoing", relationshipType := some relation.label }],
          acc.2 ++ ["out-" ++ destNode.uid])
  | none => acc

/-- Loop body: outgoing text references. -/
def outTextStep (ds : DataStore) (acc : List LinkedNode × List String)
    (linkedUid : String) : List LinkedNode × List String :=
  match mapGet ds.nodesByUid linkedUid with
  | some linkedNode =>
    if ("out-" ++ linkedNode.uid) ∈ acc.2 then acc
    else (acc.1 ++ [{ uid := linkedNode.uid, nodeType := linkedNode.nodeType,
                      title := linkedNode.titleClean, creator := linkedNode.creator,
                      direction := "outgoing", relationshipType := none }],
          acc.2 ++ ["out-" ++ linkedNode.uid])
  | none => acc

/-- Loop body: incoming typed relationships. -/
def inRelStep (ds : DataStore) (acc : List LinkedNode × List String)
    (relation : RelationInstance) : List LinkedNode × List String :=
  match mapGet ds.nodesByUid relation.sourceUid with
  | some srcNode =>
    if ("in-" ++ srcNode.uid) ∈ acc.2 then acc
    else (acc.1 ++ [{ uid := srcNode.uid, nodeType := srcNode.nodeType,
                      title := srcNode.titleClean, creator := srcNode.creator,
                      direction := "incoming", relationshipType := some relation.label }],
          acc.2 ++ ["in-" ++ srcNode.uid])
  | none => acc

/-- Loop body: incoming text references (full scan of `allNodes`). -/
def inTextStep (uid : String) (acc : List LinkedNode × List String)
    (node : DiscourseNode) : List LinkedNode × List String :=
  if node.uid ≠ uid ∧ uid ∈ node.linkedNodeUids then
    if ("in-" ++ node.uid) ∈ acc.2 then acc
    else (acc.1 ++ [{ uid := node.uid, nodeType := node.nodeType,
                      title := node.titleClean, creator := node.creator,
                      direction := "incoming", relationshipType := none }],
          acc.2 ++ ["in-" ++ node.uid])
  else acc

/-- The outgoing half of `handleGetLinkedNodes`: typed relationships first,
then text references, sharing the `addedNodes` dedup set. -/
def linkedOutgoing (ds : DataStore) (uid : String) (sourceNode : DiscourseNode)
    (acc : List LinkedNode × List String) : List LinkedNode × List String :=
  sourceNode.linkedNodeUids.foldl (outTextStep ds)
    (((mapGet ds.relationsBySource uid).getD []).foldl (outRelStep ds) acc)

/-- The incoming half of `handleGetLinkedNodes`. -/
def linkedIncoming (ds : DataStore) (uid : String)
    (acc : List LinkedNode × List String) : List LinkedNode × List String :=
  ds.allNodes.foldl (inTextStep uid)
    (((mapGet ds.relationsByDestination uid).getD []).foldl (inRelStep ds) acc)

/-- `handleGetLinkedNodes` from `tools.ts`. -/
def handleGetLinkedNodes (ds : DataStore) (uid : String) (direction : Direction) :
    ToolResult LinkedNodesResult :=
  match mapGet ds.nodesByUid uid with
  | none => ToolResult.notFound ("Node not found: " ++ uid)
  | some sourceNode =>
    let acc0 : List LinkedNode × List String := ([], [])
    let acc1 := if direction = Direction.outgoing ∨ direction = Direction.both
      then linkedOutgoing ds uid sourceNode acc0 else acc0
    let acc2 := if direction = Direction.incoming ∨ direction = Direction.both
      then linkedIncoming ds uid acc1 else acc1
    ToolResult.ok
      { sourceUid := uid, sourceTitle := sourceNode.titleClean,
        linkedNodes := acc2.1, count := acc2.1.length,
        typedRelationCount := (acc2.1.filter (fun n => relTruthy n.relationshipType)).length }

-- ===========================================================================
-- C3 — "both" versus "outgoing"/"incoming"
-- ===========================================================================

/-- A traversal loop body touches the accumulated list only by appending, and
its dedup-set update ignores the accumulated list. -/
def StepFrame {β : Type}
    (step : (List LinkedNode × List String) → β → (List LinkedNode × List String)) : Prop :=
  ∀ (l : List LinkedNode) (s : List String) (x : β),
    (step (l, s) x).1 = l ++ (step ([], s) x).1 ∧ (step (l, s) x).2 = (step ([], s) x).2

theorem foldl_frame {β : Type}
    (step : (List LinkedNode × List String) → β → (List LinkedNode × List String))
    (hf : StepFrame step) :
    ∀ (items : List β) (l : List LinkedNode) (s : List String),
      (items.foldl step (l, s)).1 = l ++ (items.foldl step ([], s)).1 ∧
        (items.foldl step (l, s)).2 = (items.foldl step ([], s)).2 := by
  intro items
  induction items with
  | nil => intro l s; simp
  | cons x rest ih =>
    intro l s
    simp only [List.foldl_cons]
    obtain ⟨h1, h2⟩ := hf l s x
    have hpair : step (l, s) x = (l ++ (step ([], s) x).1, (step ([], s) x).2) := by
      rw [← h1, ← h2]
    have hpair0 : step ([], s) x = ((step ([], s) x).1, (step ([], s) x).2) := rfl
    rw [hpair, hpair0]
    have iha := ih (l ++ (step ([], s) x).1) ((step ([], s) x).2)
    have ihb := ih ((step ([], s) x).1) ((step ([], s) x).2)
    constructor
    · rw [iha.1, ihb.1, List.append_assoc]
    · rw [iha.2, ihb.2]

/-- A state predicate preserved by every loop iteration is preserved by the
whole loop. -/
theorem foldl_preserves {σ β : Type} (step : σ → β → σ) (P : σ → Prop)
    (hstep : ∀ acc x, P acc → P (step acc x)) :
    ∀ (items : List β) (acc : σ), P acc → P (items.foldl step acc) := by
  intro items
  induction items with
  | nil => intro acc h; simpa using h
  | cons x rest ih =>
    intro acc h
    simp only [List.foldl_cons]
    exact ih _ (hstep acc x h)

theorem outRelStep_frame (ds : DataStore) : StepFrame (outRelStep ds) := by
  intro l s x
  unfold outRelStep
  cases h : mapGet ds.nodesByUid x.destinationUid with
  | none => simp
  | some destNode =>
    by_cases hk : ("out-" ++ destNode.uid) ∈ s
    · simp [hk]
    · simp [hk]

theorem outTextStep_frame (ds : DataStore) : StepFrame (outTextStep ds) := by
  intro l s x
  unfold outTextStep
  cases h : mapGet ds.nodesByUid x with
  | none => simp
  | some linkedNode =>
    by_cases hk : ("out-" ++ linkedNode.uid) ∈ s
    · simp [hk]
    · simp [hk]

theorem inRelStep_frame (ds : DataStore) : StepFrame (inRelStep ds) := by
  intro l s x
  unfold inRelStep
  cases h : mapGet ds.nodesByUid x.sourceUid with
  | none => simp
  | some srcNode =>
    by_cases hk : ("in-" ++ srcNode.uid) ∈ s
    · simp [hk]
    · simp [hk]

theorem inTextStep_frame (uid : String) : StepFrame (inTextStep uid) := by
  intro l s x
  unfold inTextStep
  by_cases hc : x.uid ≠ uid ∧ uid ∈ x.linkedNodeUids
  · by_cases hk : ("in-" ++ x.uid) ∈ s
    · simp [hc, hk]
    · simp [hc, hk]
  · simp [hc]

theorem linkedIncoming_frame (ds : DataStore) (uid : String)
    (l : List LinkedNode) (s : List String) :
    (linkedIncoming ds uid (l, s)).1 = l ++ (linkedIncoming ds uid ([], s)).1 ∧
      (linkedIncoming ds uid (l, s)).2 = (linkedIncoming ds uid ([], s)).2 := by
  unfold linkedIncoming
  have h1 := foldl_frame (inRelStep ds) (inRelStep_frame ds)
    ((mapGet ds.relationsByDestination uid).getD []) l s
  have hpair : ((mapGet ds.relationsByDestination uid).getD []).foldl (inRelStep ds) (l, s) =
      (l ++ (((mapGet ds.relationsByDestination uid).getD []).foldl (inRelStep ds) ([], s)).1,
       (((mapGet ds.relationsByDestination uid).getD []).foldl (inRelStep ds) ([], s)).2) := by
    rw [← h1.1, ← h1.2]
  rw [hpair]
  have h2 := foldl_frame (inTextStep uid) (inTextStep_frame uid) ds.allNodes
    (l ++ (((mapGet ds.relationsByDestination uid).getD []).foldl (inRelStep ds) ([], s)).1)
    ((((mapGet ds.relationsByDestination uid).getD []).foldl (inRelStep ds) ([], s)).2)
  have h3 := foldl_frame (inTextStep uid) (inTextStep_frame uid) ds.allNodes
    ((((mapGet ds.relationsByDestination uid).getD []).foldl (inRelStep ds) ([], s)).1)
    ((((mapGet ds.relationsByDestination uid).getD []).foldl (inRelStep ds) ([], s)).2)
  have hpair0 : (((mapGet ds.relationsByDestination uid).getD []).foldl (inRelStep ds) ([], s)) =
      ((((mapGet ds.relationsByDestination uid).getD []).foldl (inRelStep ds) ([], s)).1,
       (((mapGet ds.relationsByDestination uid).getD []).foldl (inRelStep ds) ([], s)).2) := rfl
  rw [hpair0]
  constructor
  · rw [h2.1, h3.1, List.append_assoc]
  · rw [h2.2, h3.2]

/-- Two dedup sets that agree on all `in-`-tagged keys drive the incoming
loops identically. -/
def InAgnostic (s1 s2 : List String) : Prop :=
  ∀ u : String, (("in-" ++ u) ∈ s1 ↔ ("in-" ++ u) ∈ s2)

theorem tag_append_injective (tag u v : String) (h : tag ++ u = tag ++ v) : u = v := by
  have hdata : tag.data ++ u.data = tag.data ++ v.data := by
    have := congrArg String.data h
    simpa [String.data_append] using this
  have hd : u.data = v.data := List.append_cancel_left hdata
  exact String.ext hd

theorem in_key_ne_out_key (u v : String) : ("in-" ++ u) ≠ ("out-" ++ v) := by
  intro h
  have hdata := congrArg String.data h
  simp [String.data_append] at hdata

/-- Every key the outgoing loops add is `out-`-tagged. -/
def AllOutKeys (s : List String) : Prop := ∀ k ∈ s, ∃ u, k = "out-" ++ u

theorem allOutKeys_inAgnostic_nil (s : List String) (h : AllOutKeys s) :
    InAgnostic s [] := by
  intro u
  constructor
  · intro hmem
    obtain ⟨w, hw⟩ := h _ hmem
    exact absurd hw (in_key_ne_out_key u w)
  · intro hmem
    simp at hmem

theorem outRelStep_keys (ds : DataStore) (acc : List LinkedNode × List String)
    (x : RelationInstance) (h : AllOutKeys acc.2) : AllOutKeys (outRelStep ds acc x).2 := by
  unfold outRelStep
  cases hm : mapGet ds.nodesByUid x.destinationUid with
  | none => simpa using h
  | some destNode =>
    by_cases hk : ("out-" ++ destNode.uid) ∈ acc.2
    · simpa [hk] using h
    · simp only [hk, if_false]
      intro k hkmem
      simp at hkmem
      rcases hkmem with hkmem | hkmem
      · exact h k hkmem
      · exact ⟨destNode.uid, hkmem⟩

theorem outTextStep_keys (ds : DataStore) (acc : List LinkedNode × List String)
    (x : String) (h : AllOutKeys acc.2) : AllOutKeys (outTextStep ds acc x).2 := by
  unfold outTextStep
  cases hm : mapGet ds.nodesByUid x with
  | none => simpa using h
  | some linkedNode =>
    by_cases hk : ("out-" ++ linkedNode.uid) ∈ acc.2
    · simpa [hk] using h
    · simp only [hk, if_false]
      intro k hkmem
      simp at hkmem
      rcases hkmem with hkmem | hkmem
      · exact h k hkmem
      · exact ⟨linkedNode.uid, hkmem⟩

theorem linkedOutgoing_keys (ds : DataStore) (uid : String) (sourceNode : DiscourseNode) :
    AllOutKeys (linkedOutgoing ds uid sourceNode ([], [])).2 := by
  unfold linkedOutgoing
  apply foldl_preserves (outTextStep ds) (fun acc => AllOutKeys acc.2)
    (fun acc x h => outTextStep_keys ds acc x h)
  apply foldl_preserves (outRelStep ds) (fun acc => AllOutKeys acc.2)
    (fun acc x h => outRelStep_keys ds acc x h)
  intro k hk
  simp at hk

theorem inRelStep_agnostic (ds : DataStore) (s1 s2 : List String)
    (x : RelationInstance) (h : InAgnostic s1 s2) :
    (inRelStep ds ([], s1) x).1 = (inRelStep ds ([], s2) x).1 ∧
      InAgnostic (inRelStep ds ([], s1) x).2 (inRelStep ds ([], s2) x).2 := by
  unfold inRelStep
  cases hm : mapGet ds.nodesByUid x.sourceUid with
  | none => exact ⟨rfl, h⟩
  | some srcNode =>
    dsimp only
    by_cases hk1 : ("in-" ++ srcNode.uid) ∈ s1
    · have hk2 : ("in-" ++ srcNode.uid) ∈ s2 := (h srcNode.uid).1 hk1
      rw [if_pos hk1, if_pos hk2]
      exact ⟨rfl, h⟩
    · have hk2 : ¬ ("in-" ++ srcNode.uid) ∈ s2 := fun hc => hk1 ((h srcNode.uid).2 hc)
      rw [if_neg hk1, if_neg hk2]
      refine ⟨rfl, fun u => ?_⟩
      simp only [List.mem_append, List.mem_singleton]
      constructor
      · intro hc
        rcases hc with hc | hc
        · exact Or.inl ((h u).1 hc)
        · exact Or.inr hc
      · intro hc
        rcases hc with hc | hc
        · exact Or.inl ((h u).2 hc)
        · exact Or.inr hc

theorem inTextStep_agnostic (uid : String) (s1 s2 : List String)
    (x : DiscourseNode) (h : InAgnostic s1 s2) :
    (inTextStep uid ([], s1) x).1 = (inTextStep uid ([], s2) x).1 ∧
      InAgnostic (inTextStep uid ([], s1) x).2 (inTextStep uid ([], s2) x).2 := by
  unfold inTextStep
  dsimp only
  by_cases hc : x.uid ≠ uid ∧ uid ∈ x.linkedNodeUids
  · simp only [if_pos hc]
    by_cases hk1 : ("in-" ++ x.uid) ∈ s1
    · have hk2 : ("in-" ++ x.uid) ∈ s2 := (h x.uid).1 hk1
      rw [if_pos hk1, if_pos hk2]
      exact ⟨rfl, h⟩
    · have hk2 : ¬ ("in-" ++ x.uid) ∈ s2 := fun hmem => hk1 ((h x.uid).2 hmem)
      rw [if_neg hk1, if_neg hk2]
      refine ⟨rfl, fun u => ?_⟩
      simp only [List.mem_append, List.mem_singleton]
      constructor
      · intro hm
        rcases hm with hm | hm
        · exact Or.inl ((h u).1 hm)
        · exact Or.inr hm
      · intro hm
        rcases hm with hm | hm
        · exact Or.inl ((h u).2 hm)
        · exact Or.inr hm
  · simp only [if_neg hc]
    exact ⟨by trivial, h⟩

theorem foldl_agnostic {β : Type}
    (step : (List LinkedNode × List String) → β → (List LinkedNode × List String))
    (hf : StepFrame step)
    (hstep : ∀ (s1 s2 : List String) (x : β), InAgnostic s1 s2 →
      (step ([], s1) x).1 = (step ([], s2) x).1 ∧
        InAgnostic (step ([], s1) x).2 (step ([], s2) x).2) :
    ∀ (items : List β) (s1 s2 : List String), InAgnostic s1 s2 →
      (items.foldl step ([], s1)).1 = (items.foldl step ([], s2)).1 ∧
        InAgnostic (items.foldl step ([], s1)).2 (items.foldl step ([], s2)).2 := by
  intro items
  induction items with
  | nil => intro s1 s2 h; exact ⟨rfl, h⟩
  | cons x rest ih =>
    intro s1 s2 h
    simp only [List.foldl_cons]
    obtain ⟨hx1, hx2⟩ := hstep s1 s2 x h
    have hp1 : step ([], s1) x = ((step ([], s1) x).1, (step ([], s1) x).2) := rfl
    have hp2 : step ([], s2) x = ((step ([], s2) x).1, (step ([], s2) x).2) := rfl
    rw [hp1, hp2, hx1]
    obtain ⟨ih1, ih2⟩ := ih ((step ([], s1) x).2) ((step ([], s2) x).2) hx2
    have hfr1 := foldl_frame step hf rest ((step ([], s2) x).1) ((step ([], s1) x).2)
    have hfr2 := foldl_frame step hf rest ((step ([], s2) x).1) ((step ([], s2) x).2)
    constructor
    · rw [hfr1.1, hfr2.1, ih1]
    · rw [hfr1.2, hfr2.2]
      exact ih2

theorem linkedIncoming_agnostic (ds : DataStore) (uid : String) (s : List String)
    (h : InAgnostic s []) :
    (linkedIncoming ds uid ([], s)).1 = (linkedIncoming ds uid ([], [])).1 := by
  unfold linkedIncoming
  have h1 := foldl_agnostic (inRelStep ds) (inRelStep_frame ds)
    (fun s1 s2 x hh => inRelStep_agnostic ds s1 s2 x hh)
    ((mapGet ds.relationsByDestination uid).getD []) s [] h
  have hpA : ((mapGet ds.relationsByDestination uid).getD []).foldl (inRelStep ds) ([], s) =
      ((((mapGet ds.relationsByDestination uid).getD []).foldl (inRelStep ds) ([], s)).1,
       (((mapGet ds.relationsByDestination uid).getD []).foldl (inRelStep ds) ([], s)).2) := rfl
  have hpB : ((mapGet ds.relationsByDestination uid).getD []).foldl (inRelStep ds) ([], []) =
      ((((mapGet ds.relationsByDestination uid).getD []).foldl (inRelStep ds) ([], [])).1,
       (((mapGet ds.relationsByDestination uid).getD []).foldl (inRelStep ds) ([], [])).2) := rfl
  rw [hpA, hpB, h1.1]
  have h2 := foldl_agnostic (inTextStep uid) (inTextStep_frame uid)
    (fun s1 s2 x hh => inTextStep_agnostic uid s1 s2 x hh) ds.allNodes
    ((((mapGet ds.relationsByDestination uid).getD []).foldl (inRelStep ds) ([], s)).2)
    ((((mapGet ds.relationsByDestination uid).getD []).foldl (inRelStep ds) ([], [])).2)
    h1.2
  have hfr1 := foldl_frame (inTextStep uid) (inTextStep_frame uid) ds.allNodes
    ((((mapGet ds.relationsByDestination uid).getD []).foldl (inRelStep ds) ([], [])).1)
    ((((mapGet ds.relationsByDestination uid).getD []).foldl (inRelStep ds) ([], s)).2)
  have hfr2 := foldl_frame (inTextStep uid) (inTextStep_frame uid) ds.allNodes
    ((((mapGet ds.relationsByDestination uid).getD []).foldl (inRelStep ds) ([], [])).1)
    ((((mapGet ds.relationsByDestination uid).getD []).foldl (inRelStep ds) ([], [])).2)
  rw [hfr1.1, hfr2.1, h2.1]

/-- Loop invariant of a traversal phase: collected uids are distinct, and each
collected entry has its tagged key in the dedup set. -/
def PhaseInv (tag : String) (acc : List LinkedNode × List String) : Prop :=
  (acc.1.map (fun e => e.uid)).Nodup ∧ ∀ e ∈ acc.1, (tag ++ e.uid) ∈ acc.2

theorem phaseInv_extend (tag : String) (acc : List LinkedNode × List String)
    (e : LinkedNode) (hinv : PhaseInv tag acc) (hk : ¬ (tag ++ e.uid) ∈ acc.2) :
    PhaseInv tag (acc.1 ++ [e], acc.2 ++ [tag ++ e.uid]) := by
  obtain ⟨hnd, hkeys⟩ := hinv
  constructor
  · simp only [List.map_append, List.map_cons, List.map_nil]
    rw [List.nodup_append]
    refine ⟨hnd, List.nodup_singleton _, ?_⟩
    intro a ha hb
    simp at hb
    subst hb
    obtain ⟨e2, he2, he2uid⟩ := List.mem_map.1 ha
    have := hkeys e2 he2
    rw [he2uid] at this
    exact hk this
  · intro e2 he2
    simp only [List.mem_append, List.mem_singleton] at he2
    rcases he2 with he2 | he2
    · exact List.mem_append_left _ (hkeys e2 he2)
    · subst he2
      exact List.mem_append_right _ (List.mem_singleton_self _)

theorem outRelStep_inv (ds : DataStore) (acc : List LinkedNode × List String)
    (x : RelationInstance) (h : PhaseInv "out-" acc) :
    PhaseInv "out-" (outRelStep ds acc x) := by
  unfold outRelStep
  cases hm : mapGet ds.nodesByUid x.destinationUid with
  | none => exact h
  | some destNode =>
    dsimp only
    by_cases hk : ("out-" ++ destNode.uid) ∈ acc.2
    · rw [if_pos hk]; exact h
    · rw [if_neg hk]
      exact phaseInv_extend "out-" acc _ h hk

theorem outTextStep_inv (ds : DataStore) (acc : List LinkedNode × List String)
    (x : String) (h : PhaseInv "out-" acc) : PhaseInv "out-" (outTextStep ds acc x) := by
  unfold outTextStep
  cases hm : mapGet ds.nodesByUid x with
  | none => exact h
  | some linkedNode =>
    dsimp only
    by_cases hk : ("out-" ++ linkedNode.uid) ∈ acc.2
    · rw [if_pos hk]; exact h
    · rw [if_neg hk]
      exact phaseInv_extend "out-" acc _ h hk

theorem inRelStep_inv (ds : DataStore) (acc : List LinkedNode × List String)
    (x : RelationInstance) (h : PhaseInv "in-" acc) : PhaseInv "in-" (inRelStep ds acc x) := by
  unfold inRelStep
  cases hm : mapGet ds.nodesByUid x.sourceUid with
  | none => exact h
  | some srcNode =>
    dsimp only
    by_cases hk : ("in-" ++ srcNode.uid) ∈ acc.2
    · rw [if_pos hk]; exact h
    · rw [if_neg hk]
      exact phaseInv_extend "in-" acc _ h hk

theorem inTextStep_inv (uid : String) (acc : List LinkedNode × List String)
    (x : DiscourseNode) (h : PhaseInv "in-" acc) : PhaseInv "in-" (inTextStep uid acc x) := by
  unfold inTextStep
  by_cases hc : x.uid ≠ uid ∧ uid ∈ x.linkedNodeUids
  · simp only [if_pos hc]
    by_cases hk : ("in-" ++ x.uid) ∈ acc.2
    · rw [if_pos hk]; exact h
    · rw [if_neg hk]
      exact phaseInv_extend "in-" acc _ h hk
  · simp only [if_neg hc]
    exact h

theorem linkedOutgoing_inv (ds : DataStore) (uid : String) (sourceNode : DiscourseNode) :
    PhaseInv "out-" (linkedOutgoing ds uid sourceNode ([], [])) := by
  unfold linkedOutgoing
  apply foldl_preserves (outTextStep ds) (PhaseInv "out-")
    (fun acc x h => outTextStep_inv ds acc x h)
  apply foldl_preserves (outRelStep ds) (PhaseInv "out-")
    (fun acc x h => outRelStep_inv ds acc x h)
  exact ⟨List.nodup_nil, by intro e he; simp at he⟩

theorem linkedIncoming_inv (ds : DataStore) (uid : String) :
    PhaseInv "in-" (linkedIncoming ds uid ([], [])) := by
  unfold linkedIncoming
  apply foldl_preserves (inTextStep uid) (PhaseInv "in-")
    (fun acc x h => inTextStep_inv uid acc x h)
  apply foldl_preserves (inRelStep ds) (PhaseInv "in-")
    (fun acc x h => inRelStep_inv ds acc x h)
  exact ⟨List.nodup_nil, by intro e he; simp at he⟩

/-- The `linkedNodes` list a direction returns (empty on not-found). -/
def linkedNodesOf (ds : DataStore) (uid : String) (direction : Direction) :
    List LinkedNode :=
  match handleGetLinkedNodes ds uid direction with
  | ToolResult.ok r => r.linkedNodes
  | ToolResult.notFound _ => []

/-- C3 (amended) — the `"both"` result is exactly the `"outgoing"` result
followed by the `"incoming"` result, and within each single direction the
returned uids are distinct.  Hence the uid *set* of `"both"` is the union of
the two directions, but a node connected in both directions appears twice in
`"both"` (once per direction) — refuting the claim's "no duplicate uids". -/
theorem getLinkedNodes_both_eq_outgoing_append_incoming (ds : DataStore) (uid : String) :
    linkedNodesOf ds uid Direction.both =
      linkedNodesOf ds uid Direction.outgoing ++ linkedNodesOf ds uid Direction.incoming ∧
      ((linkedNodesOf ds uid Direction.outgoing).map (fun e => e.uid)).Nodup ∧
      ((linkedNodesOf ds uid Direction.incoming).map (fun e => e.uid)).Nodup := by
  cases hm : mapGet ds.nodesByUid uid with
  | none => simp [linkedNodesOf, handleGetLinkedNodes, hm]
  | some sourceNode =>
    have hboth : linkedNodesOf ds uid Direction.both =
        (linkedIncoming ds uid (linkedOutgoing ds uid sourceNode ([], []))).1 := by
      simp [linkedNodesOf, handleGetLinkedNodes, hm]
    have hout : linkedNodesOf ds uid Direction.outgoing =
        (linkedOutgoing ds uid sourceNode ([], [])).1 := by
      simp [linkedNodesOf, handleGetLinkedNodes, hm]
    have hin : linkedNodesOf ds uid Direction.incoming =
        (linkedIncoming ds uid ([], [])).1 := by
      simp [linkedNodesOf, handleGetLinkedNodes, hm]
    refine ⟨?_, ?_, ?_⟩
    · rw [hboth, hout, hin]
      have hpair : linkedOutgoing ds uid sourceNode ([], []) =
          ((linkedOutgoing ds uid sourceNode ([], [])).1,
           (linkedOutgoing ds uid sourceNode ([], [])).2) := rfl
      rw [hpair]
      have hfr := linkedIncoming_frame ds uid
        ((linkedOutgoing ds uid sourceNode ([], [])).1)
        ((linkedOutgoing ds uid sourceNode ([], [])).2)
      rw [hfr.1]
      have hagn := linkedIncoming_agnostic ds uid
        ((linkedOutgoing ds uid sourceNode ([], [])).2)
        (allOutKeys_inAgnostic_nil _ (linkedOutgoing_keys ds uid sourceNode))
      rw [hagn]
    · rw [hout]
      exact (linkedOutgoing_inv ds uid sourceNode).1
    · rw [hin]
      exact (linkedIncoming_inv ds uid).1

/-- C3 (counterexample) — two nodes related in both directions: the `"both"`
result of `get_linked_nodes` lists uid `B` twice (once per direction), so its
result list does contain duplicate uids. -/
theorem getLinkedNodes_both_duplicate_uid :
    let nodeA : RawEntry :=
      { atType := "pages:t", atId := "pages:A", title := some "a", content := "",
        creator := "meg", created := "", modified := "", textRefersToNode := [],
        label := "", domain := "", range := "", predicate := "", source := "",
        destination := "" }
    let nodeB : RawEntry :=
      { atType := "pages:t", atId := "pages:B", title := some "b", content := "",
        creator := "meg", created := "", modified := "", textRefersToNode := [],
        label := "", domain := "", range := "", predicate := "", source := "",
        destination := "" }
    let relAB : RawEntry :=
      { atType := "relationInstance", atId := "", title := none, content := "",
        creator := "", created := "", modified := "", textRefersToNode := [],
        label := "", domain := "", range := "", predicate := "pages:P",
        source := "pages:A", destination := "pages:B" }
    let relBA : RawEntry :=
      { atType := "relationInstance", atId := "", title := none, content := "",
        creator := "", created := "", modified := "", textRefersToNode := [],
        label := "", domain := "", range := "", predicate := "pages:P",
        source := "pages:B", destination := "pages:A" }
    let ds := loadData (fun _ => []) [nodeA, nodeB, relAB, relBA]
    ((linkedNodesOf ds "A" Direction.both).map (fun e => e.uid) = ["B", "B"]) ∧
      ¬ ((linkedNodesOf ds "A" Direction.both).map (fun e => e.uid)).Nodup := by
  decide

-- ===========================================================================
-- tools.ts — get_node_neighborhood (BFS)
-- ===========================================================================

/-- `nodesByHop[i].push(x)` — append inside the `i`-th bucket. -/
def listAppendAt {α : Type} : List (List α) → Nat → α → List (List α)
  | [], _, _ => []
  | l :: ls, 0, x => (l ++ [x]) :: ls
  | l :: ls, i + 1, x => l :: listAppendAt ls i x

/-- `nodesByHop[i]` (empty list out of bounds). -/
def getL {α : Type} : List (List α) → Nat → List α
  | [], _ => []
  | l :: _, 0 => l
  | _ :: ls, i + 1 => getL ls i

structure NeighborhoodArgs where
  uid : String
  depth : Nat
  direction : Direction
  nodeTypeFilter : Option String
  relationshipTypeFilter : Option String
deriving DecidableEq, Repr

/-- One entry of a `nodesByHop` bucket. -/
structure HopNode where
  uid : String
  nodeType : Option String
  title : String
  creator : String
  relationshipType : Option String
deriving DecidableEq, Repr

structure NeighborhoodResult where
  startUid : String
  startTitle : String
  depth : Nat
  direction : Direction
  totalNodes : Nat
  hopCounts : List (Nat × Nat)
  nodesByHop : List (List HopNode)
deriving DecidableEq, Repr

/-- The `neighbors` map one BFS step gathers: uid → optional relationship
label, in JS `Map` insertion order, honouring direction and the
relationship-label filter (text references carry no label and are skipped
entirely while that filter is active). -/
def collectNeighbors (ds : DataStore) (args : NeighborhoodArgs) (currentUid : String)
    (currentNode : DiscourseNode) : List (String × Option String) :=
  let n1 := if args.direction = Direction.outgoing ∨ args.direction = Direction.both then
      let afterRels := ((mapGet ds.relationsBySource currentUid).getD []).foldl
        (fun m relation =>
          match truthyOpt args.relationshipTypeFilter with
          | some f =>
            if relation.label ≠ f then m
            else mapSet m relation.destinationUid (some relation.label)
          | none => mapSet m relation.destinationUid (some relation.label)) []
      match truthyOpt args.relationshipTypeFilter with
      | some _ => afterRels
      | none => currentNode.linkedNodeUids.foldl
          (fun m linkedUid =>
            if (mapGet m linkedUid).isSome then m else mapSet m linkedUid none)
          afterRels
    else []
  if args.direction = Direction.incoming ∨ args.direction = Direction.both then
    let afterRels := ((mapGet ds.relationsByDestination currentUid).getD []).foldl
      (fun m relation =>
        match truthyOpt args.relationshipTypeFilter with
        | some f =>
          if relation.label ≠ f then m
          else mapSet m relation.sourceUid (some relation.label)
        | none => mapSet m relation.sourceUid (some relation.label)) n1
    match truthyOpt args.relationshipTypeFilter with
    | some _ => afterRels
    | none => ds.allNodes.foldl
        (fun m node =>
          if node.uid ≠ currentUid ∧ currentUid ∈ node.linkedNodeUids then
            (if (mapGet m node.uid).isSome then m else mapSet m node.uid none)
          else m) afterRels
  else n1

/-- JS check `args.nodeTypeFilter && neighborNode.nodeType !== filter`. -/
def nodeTypePasses (args : NeighborhoodArgs) (n : DiscourseNode) : Bool :=
  match truthyOpt args.nodeTypeFilter with
  | some f => n.nodeType = some f
  | none => true

structure BFSState where
  visited : List (String × Nat)
  queue : List (String × Nat)
  nodesByHop : List (List HopNode)
deriving DecidableEq, Repr

/-- The object literal pushed into a `nodesByHop` bucket. -/
def mkHopNode (n : DiscourseNode) (rel : Option String) : HopNode :=
  { uid := n.uid, nodeType := n.nodeType, title := n.titleClean,
    creator := n.creator, relationshipType := rel }

/-- The body of the `for (const {nodeUid, relationshipType} of
neighbors.values())` loop. -/
def processNeighbor (ds : DataStore) (args : NeighborhoodArgs) (currentDepth : Nat)
    (st : BFSState) (nb : String × Option String) : BFSState :=
  if (mapGet st.visited nb.1).isSome then st
  else
    match mapGet ds.nodesByUid nb.1 with
    | none => st
    | some neighborNode =>
      if ¬ nodeTypePasses args neighborNode then st
      else
        let nextDepth := currentDepth + 1
        { visited := mapSet st.visited nb.1 nextDepth,
          queue := st.queue ++ [(nb.1, nextDepth)],
          nodesByHop := listAppendAt st.nodesByHop nextDepth
            (mkHopNode neighborNode nb.2) }

/-- The `while (queue.length > 0)` loop.  `fuel` bounds the number of
iterations; each iteration pops one queue element and every enqueue marks a
fresh uid of `nodesByUid` visited, so `nodesByUid.length + 1` iterations (the
fuel the handler passes) always reach the empty queue. -/
def bfsLoop (ds : DataStore) (args : NeighborhoodArgs) : Nat → BFSState → BFSState
  | 0, st => st
  | fuel + 1, st =>
    match st.queue with
    | [] => st
    | (currentUid, currentDepth) :: rest =>
      let st1 : BFSState := { st with queue := rest }
      if args.depth ≤ currentDepth then bfsLoop ds args fuel st1
      else
        match mapGet ds.nodesByUid currentUid with
        | none => bfsLoop ds args fuel st1
        | some currentNode =>
          bfsLoop ds args fuel
            ((collectNeighbors ds args currentUid currentNode).foldl
              (processNeighbor ds args currentDepth) st1)

/-- `handleGetNodeNeighborhood` from `tools.ts`. -/
def handleGetNodeNeighborhood (ds : DataStore) (args : NeighborhoodArgs) :
    ToolResult NeighborhoodResult :=
  match mapGet ds.nodesByUid args.uid with
  | none => ToolResult.notFound ("Node not found: " ++ args.uid)
  | some startNode =>
    let startEntry : HopNode := mkHopNode startNode none
    let st0 : BFSState :=
      { visited := [(args.uid, 0)], queue := [(args.uid, 0)],
        nodesByHop := listAppendAt (List.replicate (args.depth + 1) []) 0 startEntry }
    let finalSt := bfsLoop ds args (ds.nodesByUid.length + 1) st0
    ToolResult.ok
      { startUid := args.uid, startTitle := startNode.titleClean, depth := args.depth,
        direction := args.direction,
        totalNodes := finalSt.nodesByHop.foldl (fun sum nodes => sum + nodes.length) 0,
        hopCounts := finalSt.nodesByHop.enum.map (fun p => (p.1, p.2.length)),
        nodesByHop := finalSt.nodesByHop }

-- ===========================================================================
-- BFS invariants (C4, C7, C10)
-- ===========================================================================

/-- Well-formedness of the uid index: every binding maps a key to a node
whose `uid` field is that key (true of every loaded store). -/
def storeWF (ds : DataStore) : Bool := ds.nodesByUid.all (fun p => p.2.uid = p.1)

theorem storeWF_get (ds : DataStore) (hwf : storeWF ds = true) (k : String)
    (n : DiscourseNode) (hm : mapGet ds.nodesByUid k = some n) : n.uid = k := by
  have hmem := mapGet_mem _ _ _ hm
  have := List.all_eq_true.1 hwf (k, n) hmem
  simpa using this

/-- Loaded stores are well-formed in the sense of `storeWF`. -/
theorem loadData_storeWF (eiu : String → List String) (graph : List RawEntry) :
    storeWF (loadData eiu graph) = true := by
  show (pass2 eiu (resolvedRelationDefs graph) graph).nodesByUid.all
    (fun p => p.2.uid = p.1) = true
  unfold pass2
  apply foldl_preserves (pass2Step eiu (resolvedRelationDefs graph))
    (fun st => st.nodesByUid.all (fun p => p.2.uid = p.1) = true)
  · intro st e h
    unfold pass2Step
    by_cases h1 : isDiscourseNode e
    · simp only [h1, if_true]
      rw [List.all_eq_true] at h ⊢
      intro p hp
      have hsub : ∀ (m : List (String × DiscourseNode)) (node : DiscourseNode),
          (∀ q ∈ m, q.2.uid = q.1) → p ∈ mapSet m node.uid node → (p.2.uid = p.1) = True := by
        intro m node hall hmem
        induction m with
        | nil =>
          simp [mapSet] at hmem
          simp [hmem]
        | cons q rest ih =>
          by_cases hq : q.1 = node.uid
          · rw [show mapSet (q :: rest) node.uid node = (node.uid, node) :: rest from by
              simp [mapSet, hq]] at hmem
            rcases List.mem_cons.1 hmem with hmem | hmem
            · simp [hmem]
            · simpa using hall p (List.mem_cons_of_mem q hmem)
          · rw [show mapSet (q :: rest) node.uid node = q :: mapSet rest node.uid node from by
              simp [mapSet, hq]] at hmem
            rcases List.mem_cons.1 hmem with hmem | hmem
            · subst hmem
              simpa using hall p (List.mem_cons_self _ _)
            · exact ih (fun q2 hq2 => hall q2 (List.mem_cons_of_mem q hq2)) hmem
      have := hsub st.nodesByUid (parseNode eiu e) (fun q hq => by simpa using h q hq) hp
      simpa using this
    · simp only [h1, if_false, Bool.false_eq_true]
      by_cases h2 : isRelationInstance e
      · simpa [h2] using h
      · simpa [h2] using h
  · simp

theorem length_listAppendAt {α : Type} (ls : List (List α)) (i : Nat) (x : α) :
    (listAppendAt ls i x).length = ls.length := by
  induction ls generalizing i with
  | nil => simp [listAppendAt]
  | cons l rest ih =>
    cases i with
    | zero => simp [listAppendAt]
    | succ j => simp [listAppendAt, ih]

theorem getL_listAppendAt_self {α : Type} (ls : List (List α)) (i : Nat) (x : α)
    (h : i < ls.length) : getL (listAppendAt ls i x) i = getL ls i ++ [x] := by
  induction ls generalizing i with
  | nil => simp at h
  | cons l rest ih =>
    cases i with
    | zero => simp [listAppendAt, getL]
    | succ j =>
      simp only [listAppendAt, getL]
      exact ih j (by simpa using Nat.lt_of_succ_lt_succ h)

theorem getL_listAppendAt_ne {α : Type} (ls : List (List α)) (i j : Nat) (x : α)
    (h : j ≠ i) : getL (listAppendAt ls i x) j = getL ls j := by
  induction ls generalizing i j with
  | nil => simp [listAppendAt]
  | cons l rest ih =>
    cases i with
    | zero =>
      cases j with
      | zero => exact absurd rfl h
      | succ j2 => simp [listAppendAt, getL]
    | succ i2 =>
      cases j with
      | zero => simp [listAppendAt, getL]
      | succ j2 =>
        simp only [listAppendAt, getL]
        exact ih i2 j2 (fun hc => h (by rw [hc]))

theorem getL_replicate {α : Type} (n i : Nat) : getL (List.replicate n ([] : List α)) i = [] := by
  induction n generalizing i with
  | zero => simp [getL]
  | succ m ih =>
    cases i with
    | zero => simp [List.replicate, getL]
    | succ j => simp [List.replicate, getL, ih]

theorem join_listAppendAt_perm {α : Type} (ls : List (List α)) (i : Nat) (x : α)
    (h : i < ls.length) : (listAppendAt ls i x).join.Perm (ls.join ++ [x]) := by
  induction ls generalizing i with
  | nil => simp at h
  | cons l rest ih =>
    cases i with
    | zero =>
      simp only [listAppendAt, List.join_cons]
      rw [List.append_assoc, List.append_assoc]
      exact List.Perm.append_left l (List.perm_append_comm)
    | succ j =>
      simp only [listAppendAt, List.join_cons]
      rw [List.append_assoc]
      exact List.Perm.append_left l (ih j (by simpa using Nat.lt_of_succ_lt_succ h))

theorem mem_join_getL {α : Type} (ls : List (List α)) (e : α) :
    e ∈ ls.join ↔ ∃ h, e ∈ getL ls h := by
  induction ls with
  | nil =>
    simp [getL]
  | cons l rest ih =>
    simp only [List.join_cons, List.mem_append, ih]
    constructor
    · intro hmem
      rcases hmem with hmem | ⟨h, hh⟩
      · exact ⟨0, by simpa [getL] using hmem⟩
      · exact ⟨h + 1, by simpa [getL] using hh⟩
    · intro ⟨h, hh⟩
      cases h with
      | zero => exact Or.inl (by simpa [getL] using hh)
      | succ j => exact Or.inr ⟨j, by simpa [getL] using hh⟩

/-- The BFS loop invariant: bucket count is `depth+1`; hop 0 is exactly the
start entry; every reported entry's first-discovery distance is recorded in
`visited`; reported uids are globally distinct; every entry at hop `h+1` was
reached from an entry at hop `h` through an admitted edge and passed the
category filter; and every queued uid is reported at its queued distance. -/
def BFSInv (ds : DataStore) (args : NeighborhoodArgs) (startEntry : HopNode)
    (st : BFSState) : Prop :=
  st.nodesByHop.length = args.depth + 1 ∧
  getL st.nodesByHop 0 = [startEntry] ∧
  (∀ h e, e ∈ getL st.nodesByHop h → mapGet st.visited e.uid = some h) ∧
  (st.nodesByHop.join.map (fun e => e.uid)).Nodup ∧
  (∀ h e, e ∈ getL st.nodesByHop (h + 1) →
    ∃ p, p ∈ getL st.nodesByHop h ∧
      ∃ pnode, mapGet ds.nodesByUid p.uid = some pnode ∧
        (e.uid, e.relationshipType) ∈ collectNeighbors ds args p.uid pnode ∧
        ∃ enode, mapGet ds.nodesByUid e.uid = some enode ∧
          nodeTypePasses args enode = true) ∧
  (∀ q ∈ st.queue, ∃ e, e ∈ getL st.nodesByHop q.2 ∧ e.uid = q.1)

theorem listAppendAt_oob {α : Type} (ls : List (List α)) (i : Nat) (x : α)
    (h : ls.length ≤ i) : listAppendAt ls i x = ls := by
  induction ls generalizing i with
  | nil => rfl
  | cons l rest ih =>
    cases i with
    | zero => simp at h
    | succ j =>
      have hrest : rest.length ≤ j := by simp at h; omega
      simp [listAppendAt, ih j hrest]

theorem getL_listAppendAt_sub {α : Type} (ls : List (List α)) (i j : Nat) (x e : α)
    (h : e ∈ getL ls j) : e ∈ getL (listAppendAt ls i x) j := by
  by_cases hij : j = i
  · subst hij
    by_cases hlen : j < ls.length
    · rw [getL_listAppendAt_self ls j x hlen]
      exact List.mem_append_left _ h
    · rw [listAppendAt_oob ls j x (Nat.le_of_not_lt hlen)]
      exact h
  · rw [getL_listAppendAt_ne ls i j x hij]
    exact h

theorem processNeighbor_inv (ds : DataStore) (args : NeighborhoodArgs)
    (startEntry : HopNode) (hwf : storeWF ds = true) (currentUid : String)
    (currentDepth : Nat) (currentNode : DiscourseNode)
    (hcd : currentDepth < args.depth)
    (hcn : mapGet ds.nodesByUid currentUid = some currentNode)
    (st : BFSState) (nb : String × Option String)
    (hnb : nb ∈ collectNeighbors ds args currentUid currentNode)
    (hinv : BFSInv ds args startEntry st)
    (hparent : ∃ pe, pe ∈ getL st.nodesByHop currentDepth ∧ pe.uid = currentUid) :
    BFSInv ds args startEntry (processNeighbor ds args currentDepth st nb) ∧
      (∃ pe, pe ∈ getL (processNeighbor ds args currentDepth st nb).nodesByHop
          currentDepth ∧ pe.uid = currentUid) := by
  unfold processNeighbor
  by_cases hv : (mapGet st.visited nb.1).isSome
  · simp only [hv, if_true]
    exact ⟨hinv, hparent⟩
  · simp only [hv, if_false, Bool.false_eq_true]
    cases hm : mapGet ds.nodesByUid nb.1 with
    | none => exact ⟨hinv, hparent⟩
    | some neighborNode =>
      dsimp only
      by_cases hp : nodeTypePasses args neighborNode = true
      · rw [if_neg (not_not_intro hp)]
        obtain ⟨hlen, hzero, hvis, hnd, hpar, hq⟩ := hinv
        have hnone : mapGet st.visited nb.1 = none :=
          Option.not_isSome_iff_eq_none.1 (by simpa using hv)
        have hkey : neighborNode.uid = nb.1 := storeWF_get ds hwf nb.1 neighborNode hm
        have hndlt : currentDepth + 1 < st.nodesByHop.length := by
          rw [hlen]; omega
        have hnd0 : (0 : Nat) ≠ currentDepth + 1 := by omega
        refine ⟨⟨?_, ?_, ?_, ?_, ?_, ?_⟩, ?_⟩
        · simpa [length_listAppendAt] using hlen
        · simpa [getL_listAppendAt_ne _ _ _ _ hnd0] using hzero
        · intro h e he
          by_cases hh : h = currentDepth + 1
          · subst hh
            rw [getL_listAppendAt_self _ _ _ hndlt] at he
            rcases List.mem_append.1 he with he | he
            · have hold := hvis _ _ he
              have hne : nb.1 ≠ e.uid := by
                intro hc
                rw [← hc, hnone] at hold
                exact Option.noConfusion hold
              rw [mapGet_mapSet_ne _ _ hne]
              exact hold
            · have hee : e = mkHopNode neighborNode nb.2 := by simpa using he
              subst hee
              simpa [mkHopNode, hkey] using
                mapGet_mapSet_self st.visited nb.1 (currentDepth + 1)
          · rw [getL_listAppendAt_ne _ _ _ _ hh] at he
            have hold := hvis _ _ he
            have hne : nb.1 ≠ e.uid := by
              intro hc
              rw [← hc, hnone] at hold
              exact Option.noConfusion hold
            rw [mapGet_mapSet_ne _ _ hne]
            exact hold
        · have hperm := join_listAppendAt_perm st.nodesByHop (currentDepth + 1)
            (mkHopNode neighborNode nb.2) hndlt
          have hmapperm := hperm.map (fun e => e.uid)
          rw [List.Perm.nodup_iff hmapperm]
          simp only [List.map_append, List.map_cons, List.map_nil]
          rw [List.nodup_append]
          refine ⟨hnd, List.nodup_singleton _, ?_⟩
          intro a ha hb
          simp [mkHopNode] at hb
          subst hb
          obtain ⟨e2, he2, he2uid⟩ := List.mem_map.1 ha
          obtain ⟨h2, hh2⟩ := (mem_join_getL _ _).1 he2
          have hv2 := hvis _ _ hh2
          rw [he2uid, hkey, hnone] at hv2
          exact Option.noConfusion hv2
        · intro h e he
          by_cases hh : h + 1 = currentDepth + 1
          · have hhd : h = currentDepth := by omega
            subst hhd
            rw [getL_listAppendAt_self _ _ _ hndlt] at he
            rcases List.mem_append.1 he with he | he
            · obtain ⟨p, hpmem, pnode, hpn, hcol, enode, hen, hpass⟩ := hpar _ _ he
              exact ⟨p, getL_listAppendAt_sub _ _ _ _ _ hpmem, pnode, hpn, hcol,
                enode, hen, hpass⟩
            · have hee : e = mkHopNode neighborNode nb.2 := by simpa using he
              subst hee
              obtain ⟨pe, hpe, hpeuid⟩ := hparent
              refine ⟨pe, getL_listAppendAt_sub _ _ _ _ _ hpe, currentNode, ?_, ?_, ?_⟩
              · rw [hpeuid]; exact hcn
              · rw [hpeuid]
                simpa [mkHopNode, hkey] using hnb
              · exact ⟨neighborNode, by simpa [mkHopNode, hkey] using hm, hp⟩
          · rw [getL_listAppendAt_ne _ _ _ _ hh] at he
            obtain ⟨p, hpmem, pnode, hpn, hcol, enode, hen, hpass⟩ := hpar _ _ he
            exact ⟨p, getL_listAppendAt_sub _ _ _ _ _ hpmem, pnode, hpn, hcol,
              enode, hen, hpass⟩
        · intro q hqmem
          rcases List.mem_append.1 hqmem with hqmem | hqmem
          · obtain ⟨e, he, heuid⟩ := hq q hqmem
            exact ⟨e, getL_listAppendAt_sub _ _ _ _ _ he, heuid⟩
          · have hqq : q = (nb.1, currentDepth + 1) := by simpa using hqmem
            subst hqq
            refine ⟨mkHopNode neighborNode nb.2, ?_, by simpa [mkHopNode] using hkey⟩
            rw [getL_listAppendAt_self _ _ _ hndlt]
            exact List.mem_append_right _ (List.mem_singleton_self _)
        · obtain ⟨pe, hpe, hpeuid⟩ := hparent
          exact ⟨pe, getL_listAppendAt_sub _ _ _ _ _ hpe, hpeuid⟩
      · rw [if_pos hp]
        exact ⟨hinv, hparent⟩

theorem foldNeighbors_inv (ds : DataStore) (args : NeighborhoodArgs)
    (startEntry : HopNode) (hwf : storeWF ds = true) (currentUid : String)
    (currentDepth : Nat) (currentNode : DiscourseNode)
    (hcd : currentDepth < args.depth)
    (hcn : mapGet ds.nodesByUid currentUid = some currentNode) :
    ∀ (nbs : List (String × Option String)),
      (∀ nb ∈ nbs, nb ∈ collectNeighbors ds args currentUid currentNode) →
      ∀ (st : BFSState), BFSInv ds args startEntry st →
      (∃ pe, pe ∈ getL st.nodesByHop currentDepth ∧ pe.uid = currentUid) →
      BFSInv ds args startEntry
        (nbs.foldl (processNeighbor ds args currentDepth) st) := by
  intro nbs
  induction nbs with
  | nil => intro _ st hinv _; simpa using hinv
  | cons nb rest ih =>
    intro hsub st hinv hparent
    simp only [List.foldl_cons]
    have hstep := processNeighbor_inv ds args startEntry hwf currentUid currentDepth
      currentNode hcd hcn st nb (hsub nb (List.mem_cons_self _ _)) hinv hparent
    exact ih (fun x hx => hsub x (List.mem_cons_of_mem _ hx)) _ hstep.1 hstep.2

theorem bfsLoop_inv (ds : DataStore) (args : NeighborhoodArgs) (startEntry : HopNode)
    (hwf : storeWF ds = true) :
    ∀ (fuel : Nat) (st : BFSState), BFSInv ds args startEntry st →
      BFSInv ds args startEntry (bfsLoop ds args fuel st) := by
  intro fuel
  induction fuel with
  | zero => intro st h; simpa [bfsLoop] using h
  | succ f ih =>
    intro st hinv
    cases hq : st.queue with
    | nil => simpa [bfsLoop, hq] using hinv
    | cons q rest =>
      obtain ⟨currentUid, currentDepth⟩ := q
      have hinv1 : BFSInv ds args startEntry { st with queue := rest } := by
        obtain ⟨h1, h2, h3, h4, h5, h6⟩ := hinv
        refine ⟨h1, h2, h3, h4, h5, ?_⟩
        intro q2 hq2
        apply h6
        rw [hq]
        exact List.mem_cons_of_mem _ hq2
      by_cases hd : args.depth ≤ currentDepth
      · rw [show bfsLoop ds args (f + 1) st =
            bfsLoop ds args f { st with queue := rest } from by
          simp [bfsLoop, hq, hd]]
        exact ih _ hinv1
      · cases hm : mapGet ds.nodesByUid currentUid with
        | none =>
          rw [show bfsLoop ds args (f + 1) st =
              bfsLoop ds args f { st with queue := rest } from by
            simp [bfsLoop, hq, hd, hm]]
          exact ih _ hinv1
        | some currentNode =>
          rw [show bfsLoop ds args (f + 1) st = bfsLoop ds args f
              ((collectNeighbors ds args currentUid currentNode).foldl
                (processNeighbor ds args currentDepth) { st with queue := rest }) from by
            simp [bfsLoop, hq, hd, hm]]
          apply ih
          have hparent : ∃ pe, pe ∈ getL st.nodesByHop currentDepth ∧
              pe.uid = currentUid := by
            obtain ⟨e, he, heuid⟩ := hinv.2.2.2.2.2 (currentUid, currentDepth)
              (by rw [hq]; exact List.mem_cons_self _ _)
            exact ⟨e, he, heuid⟩
          exact foldNeighbors_inv ds args startEntry hwf currentUid currentDepth
            currentNode (Nat.lt_of_not_le hd) hm _ (fun nb hnb => hnb) _ hinv1 hparent

theorem join_replicate_nil {α : Type} (n : Nat) :
    (List.replicate n ([] : List α)).join = [] := by
  induction n with
  | zero => simp
  | succ m ih => simp [List.replicate, ih]

theorem BFSInv_init (ds : DataStore) (args : NeighborhoodArgs)
    (hwf : storeWF ds = true) (startNode : DiscourseNode)
    (hm : mapGet ds.nodesByUid args.uid = some startNode) :
    BFSInv ds args (mkHopNode startNode none)
      { visited := [(args.uid, 0)], queue := [(args.uid, 0)],
        nodesByHop := listAppendAt (List.replicate (args.depth + 1) [])
          0 (mkHopNode startNode none) } := by
  have huid : startNode.uid = args.uid := storeWF_get ds hwf args.uid startNode hm
  have hlt : (0 : Nat) < (List.replicate (args.depth + 1) ([] : List HopNode)).length := by
    simp
  have hget0 : getL (listAppendAt (List.replicate (args.depth + 1) [])
      0 (mkHopNode startNode none)) 0 = [mkHopNode startNode none] := by
    rw [getL_listAppendAt_self _ _ _ hlt, getL_replicate]
    rfl
  have hgetpos : ∀ h, h ≠ 0 → getL (listAppendAt (List.replicate (args.depth + 1) [])
      0 (mkHopNode startNode none)) h = [] := by
    intro h hh
    rw [getL_listAppendAt_ne _ _ _ _ hh, getL_replicate]
  refine ⟨?_, hget0, ?_, ?_, ?_, ?_⟩
  · simp [length_listAppendAt]
  · intro h e he
    by_cases hh : h = 0
    · subst hh
      rw [hget0] at he
      have hee : e = mkHopNode startNode none := by simpa using he
      subst hee
      simp [mkHopNode, huid, mapGet]
    · rw [hgetpos h hh] at he
      simp at he
  · have hperm := join_listAppendAt_perm (List.replicate (args.depth + 1) [])
      0 (mkHopNode startNode none) hlt
    have hmapperm := hperm.map (fun (e : HopNode) => e.uid)
    rw [List.Perm.nodup_iff hmapperm, join_replicate_nil]
    simp
  · intro h e he
    rw [hgetpos (h + 1) (by omega)] at he
    simp at he
  · intro q hqmem
    have hqq : q = (args.uid, 0) := by simpa using hqmem
    subst hqq
    refine ⟨mkHopNode startNode none, ?_, by simpa [mkHopNode] using huid⟩
    rw [hget0]
    exact List.mem_singleton_self _

theorem handleGetNodeNeighborhood_ok (ds : DataStore) (args : NeighborhoodArgs)
    (r : NeighborhoodResult)
    (hok : handleGetNodeNeighborhood ds args = ToolResult.ok r) :
    ∃ startNode, mapGet ds.nodesByUid args.uid = some startNode ∧
      r.nodesByHop = (bfsLoop ds args (ds.nodesByUid.length + 1)
        { visited := [(args.uid, 0)], queue := [(args.uid, 0)],
          nodesByHop := listAppendAt (List.replicate (args.depth + 1) [])
            0 (mkHopNode startNode none) }).nodesByHop := by
  unfold handleGetNodeNeighborhood at hok
  cases hm : mapGet ds.nodesByUid args.uid with
  | none =>
    rw [hm] at hok
    exact absurd hok (by simp)
  | some startNode =>
    rw [hm] at hok
    dsimp only at hok
    refine ⟨startNode, rfl, ?_⟩
    injection hok with h
    rw [← h]

/-- C4 — for every start uid in the index and any depth, direction and
filters, the BFS result has exactly `depth+1` hop buckets (no node beyond
hop `depth`), reports every uid at most once (a visited node is never
re-added at a later distance), and every node at hop `h+1` was reached from a
node reported at hop `h` through an edge admitted by the active direction and
relationship filter, itself passing the category filter. -/
theorem neighborhood_bfs_sound (ds : DataStore) (args : NeighborhoodArgs)
    (hwf : storeWF ds = true) (r : NeighborhoodResult)
    (hok : handleGetNodeNeighborhood ds args = ToolResult.ok r) :
    r.nodesByHop.length = args.depth + 1 ∧
      ((r.nodesByHop.join.map (fun e => e.uid)).Nodup) ∧
      (∀ h e, e ∈ getL r.nodesByHop (h + 1) →
        ∃ p, p ∈ getL r.nodesByHop h ∧
          ∃ pnode, mapGet ds.nodesByUid p.uid = some pnode ∧
            (e.uid, e.relationshipType) ∈ collectNeighbors ds args p.uid pnode ∧
            ∃ enode, mapGet ds.nodesByUid e.uid = some enode ∧
              nodeTypePasses args enode = true) := by
  obtain ⟨startNode, hm, hhop⟩ := handleGetNodeNeighborhood_ok ds args r hok
  have hinv := bfsLoop_inv ds args (mkHopNode startNode none) hwf
    (ds.nodesByUid.length + 1) _ (BFSInv_init ds args hwf startNode hm)
  rw [hhop]
  exact ⟨hinv.1, hinv.2.2.2.1, hinv.2.2.2.2.1⟩

/-- Extract the success payload of a tool call (with a fallback default). -/
def okValueD {α : Type} (t : ToolResult α) (d : α) : α :=
  match t with
  | ToolResult.ok v => v
  | ToolResult.notFound _ => d

/-- C4 (witness) — the three-node chain fixture, run at depth 2. -/
theorem neighborhood_bfs_sound_witness :
    let nodeA : RawEntry :=
      { atType := "pages:w", atId := "pages:A", title := some "a", content := "",
        creator := "meg", created := "", modified := "", textRefersToNode := [],
        label := "", domain := "", range := "", predicate := "", source := "",
        destination := "" }
    let nodeB : RawEntry :=
      { atType := "pages:w", atId := "pages:B", title := some "b", content := "",
        creator := "meg", created := "", modified := "",
        textRefersToNode := ["page:C"], label := "", domain := "", range := "",
        predicate := "", source := "", destination := "" }
    let nodeC : RawEntry :=
      { atType := "pages:w", atId := "pages:C", title := some "c", content := "",
        creator := "meg", created := "", modified := "", textRefersToNode := [],
        label := "", domain := "", range := "", predicate := "", source := "",
        destination := "" }
    let relAB : RawEntry :=
      { atType := "relationInstance", atId := "", title := none, content := "",
        creator := "", created := "", modified := "", textRefersToNode := [],
        label := "", domain := "", range := "", predicate := "pages:P",
        source := "pages:A", destination := "pages:B" }
    let ds := loadData (fun _ => []) [nodeA, nodeB, nodeC, relAB]
    let args : NeighborhoodArgs :=
      { uid := "A", depth := 2, direction := Direction.outgoing,
        nodeTypeFilter := none, relationshipTypeFilter := none }
    let d : NeighborhoodResult :=
      { startUid := "", startTitle := "", depth := 0, direction := Direction.both,
        totalNodes := 0, hopCounts := [], nodesByHop := [] }
    let r := okValueD (handleGetNodeNeighborhood ds args) d
    (storeWF ds = true ∧ handleGetNodeNeighborhood ds args = ToolResult.ok r) ∧
      (r.nodesByHop.length = args.depth + 1 ∧
        ((r.nodesByHop.join.map (fun e => e.uid)).Nodup) ∧
        (∀ h e, e ∈ getL r.nodesByHop (h + 1) →
          ∃ p, p ∈ getL r.nodesByHop h ∧
            ∃ pnode, mapGet ds.nodesByUid p.uid = some pnode ∧
              (e.uid, e.relationshipType) ∈ collectNeighbors ds args p.uid pnode ∧
              ∃ enode, mapGet ds.nodesByUid e.uid = some enode ∧
                nodeTypePasses args enode = true)) := by
  refine ⟨⟨by decide, by decide⟩, ?_⟩
  exact neighborhood_bfs_sound _ _ (by decide) _ (by decide)

-- ===========================================================================
-- C10 — the start node is always reported at hop 0
-- ===========================================================================

theorem processNeighbor_level0 (ds : DataStore) (args : NeighborhoodArgs)
    (currentDepth : Nat) (st : BFSState) (nb : String × Option String) :
    getL (processNeighbor ds args currentDepth st nb).nodesByHop 0 =
      getL st.nodesByHop 0 := by
  unfold processNeighbor
  by_cases hv : (mapGet st.visited nb.1).isSome
  · simp [hv]
  · simp only [hv, if_false, Bool.false_eq_true]
    cases hm : mapGet ds.nodesByUid nb.1 with
    | none => rfl
    | some neighborNode =>
      dsimp only
      by_cases hp : nodeTypePasses args neighborNode = true
      · rw [if_neg (not_not_intro hp)]
        exact getL_listAppendAt_ne _ _ _ _ (by omega)
      · rw [if_pos hp]

theorem bfsLoop_level0 (ds : DataStore) (args : NeighborhoodArgs) :
    ∀ (fuel : Nat) (st : BFSState),
      getL (bfsLoop ds args fuel st).nodesByHop 0 = getL st.nodesByHop 0 := by
  intro fuel
  induction fuel with
  | zero => intro st; simp [bfsLoop]
  | succ f ih =>
    intro st
    cases hq : st.queue with
    | nil => simp [bfsLoop, hq]
    | cons q rest =>
      obtain ⟨currentUid, currentDepth⟩ := q
      by_cases hd : args.depth ≤ currentDepth
      · rw [show bfsLoop ds args (f + 1) st =
            bfsLoop ds args f { st with queue := rest } from by simp [bfsLoop, hq, hd]]
        exact ih _
      · cases hm : mapGet ds.nodesByUid currentUid with
        | none =>
          rw [show bfsLoop ds args (f + 1) st =
              bfsLoop ds args f { st with queue := rest } from by
            simp [bfsLoop, hq, hd, hm]]
          exact ih _
        | some currentNode =>
          rw [show bfsLoop ds args (f + 1) st = bfsLoop ds args f
              ((collectNeighbors ds args currentUid currentNode).foldl
                (processNeighbor ds args currentDepth) { st with queue := rest }) from by
            simp [bfsLoop, hq, hd, hm]]
          rw [ih]
          have hfold : ∀ (nbs : List (String × Option String)) (st2 : BFSState),
              getL (nbs.foldl (processNeighbor ds args currentDepth) st2).nodesByHop 0 =
                getL st2.nodesByHop 0 := by
            intro nbs
            induction nbs with
            | nil => intro st2; rfl
            | cons nb rest2 ih2 =>
              intro st2
              simp only [List.foldl_cons]
              rw [ih2, processNeighbor_level0]
          rw [hfold]

theorem foldl_sum_length_ge {α : Type} :
    ∀ (ls : List (List α)) (a : Nat), a ≤ ls.foldl (fun s l => s + l.length) a := by
  intro ls
  induction ls with
  | nil => intro a; simp
  | cons l rest ih =>
    intro a
    simp only [List.foldl_cons]
    exact Nat.le_trans (Nat.le_add_right a l.length) (ih _)

/-- C10 — when the start uid is present, the result always reports the start
node (and only it) at hop 0 and counts it in the aggregate total, for *every*
category filter: the filter is applied to discovered neighbors only, never to
the start node itself. -/
theorem neighborhood_start_node_hop_zero (ds : DataStore) (args : NeighborhoodArgs)
    (n : DiscourseNode) (hm : mapGet ds.nodesByUid args.uid = some n) :
    ∃ r, handleGetNodeNeighborhood ds args = ToolResult.ok r ∧
      getL r.nodesByHop 0 = [mkHopNode n none] ∧ 1 ≤ r.totalNodes := by
  unfold handleGetNodeNeighborhood
  rw [hm]
  dsimp only
  refine ⟨_, rfl, ?_, ?_⟩
  · rw [bfsLoop_level0]
    rw [getL_listAppendAt_self _ _ _ (by simp), getL_replicate]
    rfl
  · have hlevel0 : getL (bfsLoop ds args (ds.nodesByUid.length + 1)
        { visited := [(args.uid, 0)], queue := [(args.uid, 0)],
          nodesByHop := listAppendAt (List.replicate (args.depth + 1) [])
            0 (mkHopNode n none) }).nodesByHop 0 = [mkHopNode n none] := by
      rw [bfsLoop_level0]
      rw [getL_listAppendAt_self _ _ _ (by simp), getL_replicate]
      rfl
    cases hls : (bfsLoop ds args (ds.nodesByUid.length + 1)
        { visited := [(args.uid, 0)], queue := [(args.uid, 0)],
          nodesByHop := listAppendAt (List.replicate (args.depth + 1) [])
            0 (mkHopNode n none) }).nodesByHop with
    | nil =>
      rw [hls] at hlevel0
      simp [getL] at hlevel0
    | cons l0 rest =>
      rw [hls] at hlevel0
      have hl0 : l0 = [mkHopNode n none] := by simpa [getL] using hlevel0
      dsimp only
      simp only [List.foldl_cons, hl0]
      exact foldl_sum_length_ge rest _

/-- C10 (witness) — the start node's own category fails the active filter,
yet the start node is reported at hop 0 and counted. -/
theorem neighborhood_start_node_hop_zero_witness :
    let nodeA : RawEntry :=
      { atType := "pages:w", atId := "pages:A", title := some "[[RES]] - a",
        content := "", creator := "meg", created := "", modified := "",
        textRefersToNode := [], label := "", domain := "", range := "",
        predicate := "", source := "", destination := "" }
    let ds := loadData (fun _ => []) [nodeA]
    let args : NeighborhoodArgs :=
      { uid := "A", depth := 2, direction := Direction.both,
        nodeTypeFilter := some "CLM", relationshipTypeFilter := none }
    mapGet ds.nodesByUid "A" = some (parseNode (fun _ => []) nodeA) ∧
      ∃ r, handleGetNodeNeighborhood ds args = ToolResult.ok r ∧
        getL r.nodesByHop 0 = [mkHopNode (parseNode (fun _ => []) nodeA) none] ∧
        1 ≤ r.totalNodes := by
  refine ⟨by decide, ?_⟩
  exact neighborhood_start_node_hop_zero _ _ _ (by decide)

-- ===========================================================================
-- C7 — the relationship-label filter admits only matching typed edges
-- ===========================================================================

theorem mem_mapSet_elim {α : Type} (m : List (String × α)) (k x : String) (v w : α)
    (h : (x, w) ∈ mapSet m k v) : (x, w) ∈ m ∨ (x = k ∧ w = v) := by
  induction m with
  | nil =>
    simp [mapSet] at h
    exact Or.inr h
  | cons p rest ih =>
    obtain ⟨k0, v0⟩ := p
    by_cases h0 : k0 = k
    · rw [show mapSet ((k0, v0) :: rest) k v = (k, v) :: rest from by
        simp [mapSet, h0]] at h
      rcases List.mem_cons.1 h with h | h
      · exact Or.inr (by simpa using h)
      · exact Or.inl (List.mem_cons_of_mem _ h)
    · rw [show mapSet ((k0, v0) :: rest) k v = (k0, v0) :: mapSet rest k v from by
        simp [mapSet, h0]] at h
      rcases List.mem_cons.1 h with h | h
      · exact Or.inl (by simp [h])
      · rcases ih h with h | h
        · exact Or.inl (List.mem_cons_of_mem _ h)
        · exact Or.inr h

/-- With an active relationship-label filter, every gathered neighbor carries
exactly the filter label and stems from a typed relation with that label (no
text-reference edge is gathered). -/
theorem collectNeighbors_filter_typed (ds : DataStore) (args : NeighborhoodArgs)
    (currentUid : String) (currentNode : DiscourseNode) (f : String)
    (hf : truthyOpt args.relationshipTypeFilter = some f) :
    ∀ nb ∈ collectNeighbors ds args currentUid currentNode,
      nb.2 = some f ∧
        ((∃ rel, rel ∈ (mapGet ds.relationsBySource currentUid).getD [] ∧
            rel.label = f ∧ rel.destinationUid = nb.1) ∨
         (∃ rel, rel ∈ (mapGet ds.relationsByDestination currentUid).getD [] ∧
            rel.label = f ∧ rel.sourceUid = nb.1)) := by
  unfold collectNeighbors
  rw [hf]
  set P := fun (m : List (String × Option String)) => ∀ nb ∈ m,
    nb.2 = some f ∧
      ((∃ rel, rel ∈ (mapGet ds.relationsBySource currentUid).getD [] ∧
          rel.label = f ∧ rel.destinationUid = nb.1) ∨
       (∃ rel, rel ∈ (mapGet ds.relationsByDestination currentUid).getD [] ∧
          rel.label = f ∧ rel.sourceUid = nb.1)) with hP
  have houtfold : ∀ (items : List RelationInstance),
      (∀ rel ∈ items, rel ∈ (mapGet ds.relationsBySource currentUid).getD []) →
      ∀ m, P m → P (items.foldl (fun m2 relation =>
        if relation.label ≠ f then m2
        else mapSet m2 relation.destinationUid (some relation.label)) m) := by
    intro items
    induction items with
    | nil => intro _ m hm; simpa using hm
    | cons rel rest ih =>
      intro hsub m hm
      simp only [List.foldl_cons]
      refine ih (fun x hx => hsub x (List.mem_cons_of_mem _ hx)) _ ?_
      by_cases hlab : rel.label ≠ f
      · simpa [hlab] using hm
      · rw [if_neg hlab]
        rw [hP]
        intro nb hnb
        obtain ⟨x, w⟩ := nb
        rcases mem_mapSet_elim _ _ _ _ _ hnb with hnb | hnb
        · exact hm (x, w) hnb
        · obtain ⟨hx, hw⟩ := hnb
          have hlabf : rel.label = f := by simpa using hlab
          refine ⟨by simp [hw, hlabf], Or.inl ⟨rel,
            hsub rel (List.mem_cons_self _ _), hlabf, by simp [hx]⟩⟩
  have hinfold : ∀ (items : List RelationInstance),
      (∀ rel ∈ items, rel ∈ (mapGet ds.relationsByDestination currentUid).getD []) →
      ∀ m, P m → P (items.foldl (fun m2 relation =>
        if relation.label ≠ f then m2
        else mapSet m2 relation.sourceUid (some relation.label)) m) := by
    intro items
    induction items with
    | nil => intro _ m hm; simpa using hm
    | cons rel rest ih =>
      intro hsub m hm
      simp only [List.foldl_cons]
      refine ih (fun x hx => hsub x (List.mem_cons_of_mem _ hx)) _ ?_
      by_cases hlab : rel.label ≠ f
      · simpa [hlab] using hm
      · rw [if_neg hlab]
        rw [hP]
        intro nb hnb
        obtain ⟨x, w⟩ := nb
        rcases mem_mapSet_elim _ _ _ _ _ hnb with hnb | hnb
        · exact hm (x, w) hnb
        · obtain ⟨hx, hw⟩ := hnb
          have hlabf : rel.label = f := by simpa using hlab
          refine ⟨by simp [hw, hlabf], Or.inr ⟨rel,
            hsub rel (List.mem_cons_self _ _), hlabf, by simp [hx]⟩⟩
  have hP1 : P (if args.direction = Direction.outgoing ∨ args.direction = Direction.both
      then ((mapGet ds.relationsBySource currentUid).getD []).foldl
        (fun m2 relation =>
          if relation.label ≠ f then m2
          else mapSet m2 relation.destinationUid (some relation.label)) []
      else []) := by
    by_cases hdir : args.direction = Direction.outgoing ∨ args.direction = Direction.both
    · rw [if_pos hdir]
      refine houtfold _ (fun x hx => hx) [] ?_
      rw [hP]
      intro nb hnb
      simp at hnb
    · rw [if_neg hdir]
      rw [hP]
      intro nb hnb
      simp at hnb
  by_cases hdir2 : args.direction = Direction.incoming ∨ args.direction = Direction.both
  · rw [if_pos hdir2]
    exact hinfold _ (fun x hx => hx) _ hP1
  · rw [if_neg hdir2]
    exact hP1

/-- C7 — while a relationship-label filter is active, every node beyond hop 0
was reached through a typed relation whose label equals the filter (and its
entry carries that label); text cross-reference edges are never traversed. -/
theorem neighborhood_relationship_filter_typed_only (ds : DataStore)
    (args : NeighborhoodArgs) (hwf : storeWF ds = true) (f : String)
    (hf : truthyOpt args.relationshipTypeFilter = some f) (r : NeighborhoodResult)
    (hok : handleGetNodeNeighborhood ds args = ToolResult.ok r) :
    ∀ h e, e ∈ getL r.nodesByHop (h + 1) →
      e.relationshipType = some f ∧
        ∃ p, p ∈ getL r.nodesByHop h ∧
          ((∃ rel, rel ∈ (mapGet ds.relationsBySource p.uid).getD [] ∧
              rel.label = f ∧ rel.destinationUid = e.uid) ∨
           (∃ rel, rel ∈ (mapGet ds.relationsByDestination p.uid).getD [] ∧
              rel.label = f ∧ rel.sourceUid = e.uid)) := by
  intro h e he
  obtain ⟨startNode, hm, hhop⟩ := handleGetNodeNeighborhood_ok ds args r hok
  have hinv := bfsLoop_inv ds args (mkHopNode startNode none) hwf
    (ds.nodesByUid.length + 1) _ (BFSInv_init ds args hwf startNode hm)
  rw [hhop] at he
  obtain ⟨p, hp, pnode, hpn, hcol, _⟩ := hinv.2.2.2.2.1 h e he
  have hedge := collectNeighbors_filter_typed ds args p.uid pnode f hf
    (e.uid, e.relationshipType) hcol
  refine ⟨by simpa using hedge.1, p, by rw [hhop]; exact hp, ?_⟩
  simpa using hedge.2

/-- C7 (witness) — chain `A -Supports-> B -(text)-> C` with the "Supports"
filter: the one hop-1 entry is `B` with label "Supports", reached by a typed
relation; the text edge to `C` is not traversed. -/
theorem neighborhood_relationship_filter_typed_only_witness :
    let nodeA : RawEntry :=
      { atType := "pages:w", atId := "pages:A", title := some "a", content := "",
        creator := "meg", created := "", modified := "", textRefersToNode := [],
        label := "", domain := "", range := "", predicate := "", source := "",
        destination := "" }
    let nodeB : RawEntry :=
      { atType := "pages:w", atId := "pages:B", title := some "b", content := "",
        creator := "meg", created := "", modified := "",
        textRefersToNode := ["page:C"], label := "", domain := "", range := "",
        predicate := "", source := "", destination := "" }
    let nodeC : RawEntry :=
      { atType := "pages:w", atId := "pages:C", title := some "c", content := "",
        creator := "meg", created := "", modified := "", textRefersToNode := [],
        label := "", domain := "", range := "", predicate := "", source := "",
        destination := "" }
    let relDefP : RawEntry :=
      { atType := "relationDef", atId := "pages:P", title := none, content := "",
        creator := "", created := "", modified := "", textRefersToNode := [],
        label := "Supports", domain := "pages:_RES-node", range := "pages:_CLM-node",
        predicate := "", source := "", destination := "" }
    let relAB : RawEntry :=
      { atType := "relationInstance", atId := "", title := none, content := "",
        creator := "", created := "", modified := "", textRefersToNode := [],
        label := "", domain := "", range := "", predicate := "pages:P",
        source := "pages:A", destination := "pages:B" }
    let ds := loadData (fun _ => []) [nodeA, nodeB, nodeC, relDefP, relAB]
    let args : NeighborhoodArgs :=
      { uid := "A", depth := 2, direction := Direction.both,
        nodeTypeFilter := none, relationshipTypeFilter := some "Supports" }
    let d : NeighborhoodResult :=
      { startUid := "", startTitle := "", depth := 0, direction := Direction.both,
        totalNodes := 0, hopCounts := [], nodesByHop := [] }
    let r := okValueD (handleGetNodeNeighborhood ds args) d
    (storeWF ds = true ∧ truthyOpt args.relationshipTypeFilter = some "Supports" ∧
      handleGetNodeNeighborhood ds args = ToolResult.ok r) ∧
      (∀ h e, e ∈ getL r.nodesByHop (h + 1) →
        e.relationshipType = some "Supports" ∧
          ∃ p, p ∈ getL r.nodesByHop h ∧
            ((∃ rel, rel ∈ (mapGet ds.relationsBySource p.uid).getD [] ∧
                rel.label = "Supports" ∧ rel.destinationUid = e.uid) ∨
             (∃ rel, rel ∈ (mapGet ds.relationsByDestination p.uid).getD [] ∧
                rel.label = "Supports" ∧ rel.sourceUid = e.uid))) := by
  intro nodeA nodeB nodeC relDefP relAB ds args d r
  refine ⟨⟨by decide, by decide, by decide⟩, ?_⟩
  exact neighborhood_relationship_filter_typed_only ds args (by decide) "Supports"
    (by decide) r (by decide)

-- ===========================================================================
-- C9 — nonexistent uids yield structured not-found results
-- ===========================================================================

def isNotFound {α : Type} : ToolResult α → Bool
  | ToolResult.notFound _ => true
  | ToolResult.ok _ => false

/-- C9 — both traversal operations are total functions whose result is the
structured not-found reply exactly when the queried uid is absent from the
index (so a present uid never produces it, and an absent one never produces
anything else). -/
theorem traversal_not_found_iff_uid_absent (ds : DataStore) (uid : String)
    (direction : Direction) (args : NeighborhoodArgs) :
    isNotFound (handleGetLinkedNodes ds uid direction) =
        (mapGet ds.nodesByUid uid).isNone ∧
      isNotFound (handleGetNodeNeighborhood ds args) =
        (mapGet ds.nodesByUid args.uid).isNone := by
  constructor
  · unfold handleGetLinkedNodes
    cases hm : mapGet ds.nodesByUid uid with
    | none => rfl
    | some sourceNode => rfl
  · unfold handleGetNodeNeighborhood
    cases hm : mapGet ds.nodesByUid args.uid with
    | none => rfl
    | some startNode => rfl
